import Mathlib

/-!
# A verification development for the vitarx css-in-js style-rule engine

This file gives a shallow embedding, in Lean 4, of the style-rule lifecycle
engine of the vitarx css-in-js package, and proves properties of that
embedding.

The embedding follows the current sources (src/css-in-js.ts together with
src/utils.ts); the older variants of CssInJs.deleteRule that normalise a
selector by prepending a dot are embedded separately under the Legacy
namespace.

Modelling conventions:
* JavaScript strings are Lean Strings; the handful of string operations the
  source uses (trim, startsWith, includes, one-shot replace, split-head)
  are re-implemented on the character list so that they mirror the JS
  semantics exactly and stay kernel-computable.
* JavaScript numbers appearing as style values are modelled as Int (the
  engine only stringifies them); objects/null/booleans that are neither
  strings nor numbers are collapsed into one constructor.
* DOM CSSStyleSheet / CSSStyleRule objects are modelled as explicit data
  (lists of entries); object identity is an explicit Nat id.
* Math.random inside createUUIDGenerator is elided (the random prefix adds
  no observable structure); the counter part of the generator is kept.
-/

namespace CssJs

/-! ## JavaScript string primitives -/

/-- Character-level trim (JS String.prototype.trim). -/
def trimCharList (l : List Char) : List Char :=
  ((l.dropWhile Char.isWhitespace).reverse.dropWhile Char.isWhitespace).reverse

/-- JS v.trim(). -/
def jsTrim (s : String) : String := ⟨trimCharList s.data⟩

/-- JS s.startsWith(p). -/
def jsStartsWith (s p : String) : Bool := p.data.isPrefixOf s.data

/-- JS s.includes(pat), on character lists. -/
def containsSub (l pat : List Char) : Bool :=
  pat.isPrefixOf l ||
    match l with
    | [] => false
    | _ :: t => containsSub t pat

/-- JS s.replace(pat, rep) with a plain-string pattern: first occurrence only. -/
def replaceFirstList (s pat rep : List Char) : List Char :=
  match s with
  | [] => []
  | c :: rest =>
    if pat.isPrefixOf (c :: rest) then rep ++ (c :: rest).drop pat.length
    else c :: replaceFirstList rest pat rep

/-- JS s.split(c)[0]: everything strictly before the first occurrence of c. -/
def jsTakeUntil (c : Char) (s : String) : String := ⟨s.data.takeWhile (fun x => x != c)⟩

/-- JS s.slice(1), used for selector names. -/
def jsDrop1 (s : String) : String := ⟨s.data.drop 1⟩

/-- JS s.length (code units; all our strings are ASCII). -/
def jsLength (s : String) : Nat := s.data.length

/-- A decimal digit character. -/
def digitChar (n : Nat) : Char := Char.ofNat (48 + n % 10)

/-- Decimal digits of a Nat, fuel-driven so it reduces in the kernel. -/
def natDigitsGo : Nat → Nat → List Char → List Char
  | 0, _, acc => acc
  | f + 1, n, acc => if n < 10 then digitChar n :: acc else natDigitsGo f (n / 10) (digitChar n :: acc)

/-- JS String(n) for a natural number. -/
def natToString (n : Nat) : String := ⟨natDigitsGo (n + 1) n []⟩

/-- JS String(n) for an integer style value. -/
def intToString : Int → String
  | .ofNat m => natToString m
  | .negSucc m => "-" ++ natToString (m + 1)

/-! ## src/utils.ts : style value and key formatting -/

/-- The characters of the priority token. -/
def importantPat : List Char := "!important".data

/-- utils.removePriority: strip the first "!important" occurrence, then trim. -/
def removePriority (s : String) : String :=
  if containsSub s.data importantPat then ⟨trimCharList (replaceFirstList s.data importantPat [])⟩
  else jsTrim s

/-- A JavaScript style value: a string, a number, or anything else
(null, undefined, booleans, nested objects, ...). -/
inductive StyleValue
  | str (s : String)
  | num (n : Int)
  | other
deriving DecidableEq, Repr

/-- utils.formatStyleValue: none models the null return (value dropped). -/
def formatStyleValue : StyleValue → Option String
  | .str s =>
    if 0 < jsLength (removePriority s) then
      let v := jsTrim s
      if 0 < jsLength v then some v else none
    else none
  | .num n => some (intToString n)
  | .other => none

/-- Insert a hyphen between a lowercase letter and the uppercase letter
following it (the /([a-z])([A-Z])/g replacement of utils.formatStyleKey). -/
def hyphenate : List Char → List Char
  | [] => []
  | [c] => [c]
  | a :: b :: rest =>
    if a.isLower && b.isUpper then a :: '-' :: hyphenate (b :: rest)
    else a :: hyphenate (b :: rest)

/-- utils.formatStyleKey: camelCase to hyphen-case, then lowercase. -/
def formatStyleKey (key : String) : String := ⟨(hyphenate key.data).map Char.toLower⟩

/-- utils.formatSelector: prepend a dot unless the trimmed selector already
starts with '.', '#' or '@'. -/
def formatSelector (selector : String) : String :=
  let s := jsTrim selector
  if !jsStartsWith s "." && !jsStartsWith s "#" && !jsStartsWith s "@" then "." ++ s else s

/-- Sanity: formatStyleKey hyphenates camelCase. -/
example : formatStyleKey "fontSize" = "font-size" := by decide

/-- Sanity: a bare priority token is an invalid style value. -/
example : formatStyleValue (.str " !important ") = none := by decide

/-- Sanity: numeric zero is kept. -/
example : formatStyleValue (.num 0) = some "0" := by decide

/-- Sanity: a value keeps its trailing priority marker. -/
example : formatStyleValue (.str " red !important ") = some "red !important" := by decide

/-! ## Style inputs

A CssStyleMap argument to define is a plain record of key/value pairs, a
RefSignal or a ProxySignal wrapping one (the vitarx reactivity wrappers), or
an invalid value such as null or a bare string. -/

inductive StyleInput
  | record (m : List (String × StyleValue))
  | refSig (m : List (String × StyleValue))
  | proxySig (m : List (String × StyleValue))
  | nullVal
  | strVal (s : String)
deriving DecidableEq, Repr

/-- vitarx isRecordObject (a non-null object; signals are objects too). -/
def isRecordObject : StyleInput → Bool
  | .record _ => true
  | .refSig _ => true
  | .proxySig _ => true
  | .nullVal => false
  | .strVal _ => false

/-- vitarx isRefSignal. -/
def isRefSignal : StyleInput → Bool
  | .refSig _ => true
  | _ => false

/-- vitarx isProxy (reactive proxies; a RefSignal is a class instance, not a
Proxy). -/
def isProxy : StyleInput → Bool
  | .proxySig _ => true
  | _ => false

/-- vitarx isSignal (both signal kinds). -/
def isSignal : StyleInput → Bool
  | .refSig _ => true
  | .proxySig _ => true
  | _ => false

/-- The `if (isRefSignal(style)) style = style.value` unwrapping step. -/
def unwrapRef : StyleInput → StyleInput
  | .refSig m => .record m
  | s => s

/-- Character-by-character entries of a primitive string, as produced by a
JS for..in loop over the string (index keys, single-character values). -/
def stringForIn (l : List Char) (i : Nat) : List (String × StyleValue) :=
  match l with
  | [] => []
  | c :: rest => (natToString i, .str ⟨[c]⟩) :: stringForIn rest (i + 1)

/-- JS for..in / Object.entries enumeration of a style argument. A record or
proxy enumerates its own keys in insertion order; for..in over null yields
nothing; for..in over a string yields its indices. (The refSig case is
unreachable: every caller unwraps RefSignals first.) -/
def jsEntries : StyleInput → List (String × StyleValue)
  | .record m => m
  | .refSig m => m
  | .proxySig m => m
  | .nullVal => []
  | .strVal s => stringForIn s.data 0

/-! ## Rules, declarations and sheets -/

/-- One property of a CSSStyleDeclaration: name, value (priority stripped)
and priority ("" or "important"), exactly the triple the DOM stores. -/
structure StyleDecl where
  prop : String
  value : String
  priority : String
deriving DecidableEq, Repr

/-- A CssStyleRule: a CSSStyleRule extended with the name/className field.
The listener field models the single (own) listener property; the Nat is the
id of the Subscriber it holds. The id field models object identity. -/
structure StyleRule where
  id : Nat
  selectorText : String
  decls : List StyleDecl
  name : String
  listener : Option Nat
deriving DecidableEq, Repr

/-- Lookup in a formatted-styles dictionary (unique keys). -/
def fsLookup (l : List StyleDecl) (k : String) : Option StyleDecl :=
  l.find? (fun d => d.prop == k)

/-- JS object assignment formatedStyles[k] = v: overwrite in place if the key
exists, else append (insertion order preserved). -/
def fsSet (l : List StyleDecl) (k v p : String) : List StyleDecl :=
  if l.any (fun d => d.prop == k) then
    l.map (fun d => if d.prop == k then ⟨k, v, p⟩ else d)
  else l ++ [⟨k, v, p⟩]

/-- JS delete formatedStyles[k]. -/
def fsErase (l : List StyleDecl) (k : String) : List StyleDecl :=
  l.filter (fun d => d.prop != k)

/-- The formatedStyles dictionary built by CssInJs.replaceRuleStyle: for each
enumerated property with a valid value, store the formatted key, the value
with its priority marker stripped, and the priority. This is also exactly
what the host engine ends up storing when it parses the rule text generated
by cssStyleMapToCssRuleText. -/
def buildFormated (entries : List (String × StyleValue)) : List StyleDecl :=
  entries.foldl
    (fun acc kv =>
      match formatStyleValue kv.2 with
      | none => acc
      | some val =>
        let nv := removePriority val
        fsSet acc (formatStyleKey kv.1) nv (if nv = val then "" else "important"))
    []

/-- The declaration body text accumulated by replaceRuleStyle's first loop:
one "key: value; " piece per valid property, in enumeration order. -/
def ruleBodyTextSp (entries : List (String × StyleValue)) : String :=
  entries.foldl
    (fun acc kv =>
      match formatStyleValue kv.2 with
      | none => acc
      | some val => acc ++ formatStyleKey kv.1 ++ ": " ++ val ++ "; ")
    ""

/-- The cssText of a live CSSStyleDeclaration (browser serialisation). -/
def declsCssText (l : List StyleDecl) : String :=
  String.intercalate " "
    (l.map (fun d =>
      d.prop ++ ": " ++ d.value ++ (if d.priority = "important" then " !important" else "") ++ ";"))

/-- CSSStyleDeclaration.setProperty on a declaration list: an empty value
removes the property, otherwise an existing property is updated in place and
a new one is appended. -/
def setProperty (l : List StyleDecl) (k v p : String) : List StyleDecl :=
  if v = "" then fsErase l k else fsSet l k v p

/-- The backward update/removal loop of CssInJs.replaceRuleStyle. The input
is the declaration list reversed (the loop runs from the last index down);
the first component of the result is the surviving declarations in their
original order, the second the formatedStyles entries not yet consumed.
Each visited property that occurs in formatedStyles is set in place to the
new value/priority and deleted from the dictionary; every other property is
removed. (A CSSStyleDeclaration never holds duplicate property names, so
in-place setProperty is the update of the visited position.) -/
def applyPatchRev : List StyleDecl → List StyleDecl → List StyleDecl × List StyleDecl
  | [], fs => ([], fs)
  | d :: revRest, fs =>
    match fsLookup fs d.prop with
    | some f =>
      let r := applyPatchRev revRest (fsErase fs d.prop)
      if f.value = "" then r else (r.1 ++ [⟨d.prop, f.value, f.priority⟩], r.2)
    | none => applyPatchRev revRest fs

/-- CssInJs.replaceRuleStyle (the diff-and-patch engine): unwrap a RefSignal,
build the formatted target dictionary, no-op when the freshly built rule text
coincides with the declaration's cssText, otherwise walk the declaration
backwards updating/removing properties and finally append the properties that
were not yet present. -/
def replaceRuleStyle (rule : StyleRule) (style : StyleInput) : StyleRule :=
  let style := unwrapRef style
  let entries := jsEntries style
  let fs := buildFormated entries
  let newCssText := rule.selectorText ++ " \x7b " ++ ruleBodyTextSp entries ++ "\x7d"
  if declsCssText rule.decls = newCssText then rule
  else
    let r := applyPatchRev rule.decls.reverse fs
    { rule with decls := r.1 ++ r.2.filter (fun f => f.value != "") }

/-- Sanity: the diff removes stale properties and keeps fresh ones. -/
example :
    (replaceRuleStyle
      { id := 0, selectorText := ".x",
        decls := [⟨"color", "red", ""⟩, ⟨"font-size", "12px", ""⟩],
        name := "x", listener := none }
      (.record [("color", .str "blue")])).decls = [⟨"color", "blue", ""⟩] := by decide

/-- Concatenation of a list of fragments (Array.prototype.join('')). -/
def joinAll : List String → String
  | [] => ""
  | s :: t => s ++ joinAll t

/-! ## Errors, serialisation and the selector resolver -/

/-- The error taxonomy of the engine. invalidSelector is the TypeError thrown
by parseSelector for at-rule selectors; invalidStyleInput the TypeError thrown
by cssStyleMapToCssRuleText for non-record styles. -/
inductive EngineError
  | invalidSelector
  | invalidStyleInput
deriving DecidableEq, Repr

deriving instance DecidableEq for Except

/-- utils.cssStyleMapToCssRuleText: unwrap a RefSignal, reject non-record
styles, and serialise the remaining entries into a rule text. -/
def cssStyleMapToCssRuleText (style : StyleInput) (selectorText : String) :
    Except EngineError String :=
  let style := unwrapRef style
  if isRecordObject style then
    .ok (selectorText ++ "\x7b" ++
      (jsEntries style).foldl
        (fun acc kv =>
          match formatStyleValue kv.2 with
          | none => acc
          | some v => acc ++ formatStyleKey kv.1 ++ ": " ++ v ++ ";")
        "" ++ "\x7d")
  else .error .invalidStyleInput

/-- The alphabet of createUUIDGenerator. -/
def chars52 : List Char := "abcdefghijklmnopqrstuvwxyzABCDEFGHIJKLMNOPQRSTUVWXYZ".data

/-- The while loop of convertToBase, fuel-driven (the counter shrinks by
division by 52, so the counter itself is enough fuel). -/
def convertToBaseGo : Nat → Nat → List Char → List Char
  | 0, _, acc => acc
  | f + 1, n, acc =>
    if n = 0 then acc else convertToBaseGo f (n / 52) (chars52.getD (n % 52) 'a' :: acc)

/-- convertToBase of createUUIDGenerator: counter rendered in base 52. -/
def convertToBase (n : Nat) : String :=
  if n = 0 then "a" else ⟨convertToBaseGo n n []⟩

/-- The generator returned by createUUIDGenerator, applied at counter value
n. The random prefix is elided (it is Math.random-driven and carries no
structure); the counter suffix logic is kept. -/
def uuidGen (n : Nat) : String := convertToBase n

/-- CssInJs.parseSelector. Inputs: the engine-level prefix, the current uuid
counter, the raw selector and the per-call prefix. Output: either the
(name, selectorText) pair or the at-rule TypeError, together with the uuid
counter after the call (it advances only when a name was generated). -/
def parseSelector (enginePre : String) (count : Nat) (selector pfx : String) :
    Except EngineError (String × String) × Nat :=
  let s := jsTrim selector
  if s = "" then
    let name := enginePre ++ pfx ++ uuidGen count
    (.ok (name, "." ++ name), count + 1)
  else if jsStartsWith s "@" then (.error .invalidSelector, count)
  else
    let base := jsTrim (jsTakeUntil '[' (jsTakeUntil ':' s))
    if !jsStartsWith base "." && !jsStartsWith base "#" then (.ok (base, "." ++ s), count)
    else (.ok (jsDrop1 base, s), count)

/-! ## Subscriptions (watchProxyStyleChange) -/

/-- The bookkeeping of the vitarx watch collaborator, as seen from the
engine: ids handed out so far, which rule each subscription was created for,
and which subscriptions have been disposed. -/
structure SubSys where
  nextId : Nat
  owner : List (Nat × Nat)
  disposed : List Nat
deriving DecidableEq, Repr

/-- CssInJs.watchProxyStyleChange on one rule: if the rule already owns a
listener property, do nothing at all; otherwise create a subscription and
define the listener property with it. The style argument is only captured by
the change callback (which re-runs replaceRuleStyle) and does not influence
the binding itself. -/
def watchProxyStyleChange (rule : StyleRule) (_style : StyleInput) (sys : SubSys) :
    StyleRule × SubSys :=
  if rule.listener.isSome then (rule, sys)
  else
    ({ rule with listener := some sys.nextId },
     { nextId := sys.nextId + 1,
       owner := sys.owner ++ [(sys.nextId, rule.id)],
       disposed := sys.disposed })

/-- Disposing the listener of a rule: the Subscriber is marked disposed and
its onDispose callback deletes the rule's listener property. Idempotent. -/
def disposeListener (rule : StyleRule) (sys : SubSys) : StyleRule × SubSys :=
  match rule.listener with
  | none => (rule, sys)
  | some sid =>
    ({ rule with listener := none },
     { sys with disposed := if sys.disposed.contains sid then sys.disposed else sys.disposed ++ [sid] })

/-! ## Sheets and the engine state -/

/-- The five preset screen breakpoints. -/
inductive MediaScreen
  | xs | sm | md | lg | xl
deriving DecidableEq, Repr

/-- The default mediaScreenRule option strings. -/
def mediaScreenRule : MediaScreen → String
  | .xs => "@media screen and (max-width: 480px)"
  | .sm => "@media screen and (min-width: 768px)"
  | .md => "@media screen and (min-width: 992px)"
  | .lg => "@media screen and (min-width: 1200px)"
  | .xl => "@media screen and (min-width: 1920px)"

/-- Which of the two top-level buckets a rule targets. -/
inductive SheetType
  | dynamicTy
  | readonlyTy
deriving DecidableEq, Repr

/-- A reference to one backing CSSStyleSheet: the dynamic sheet, the readonly
(static) sheet, or the at-rule shell registered for a (type, screen) pair in
the screen sheet map. -/
inductive SheetRef
  | dynamicS
  | readonlyS
  | screenS (t : SheetType) (s : MediaScreen)
deriving DecidableEq, Repr

/-- One entry of a sheet's cssRules list: a style rule, or a media at-rule
shell. A shell's identity is its mid; its own rule list lives in the engine
state's shellContents table (mirroring that the CSSMediaRule object owns its
nested rules). -/
inductive SheetEntry
  | style (r : StyleRule)
  | media (mid : Nat) (cond : String)
deriving DecidableEq, Repr

/-- Generic association-list lookup (JS Map.get / WeakMap.get). -/
def alookup {α β : Type} [BEq α] (l : List (α × β)) (k : α) : Option β :=
  (l.find? (fun p => p.1 == k)).map (fun p => p.2)

/-- Generic association-list set (JS Map.set): overwrite or append. -/
def aset {α β : Type} [BEq α] (l : List (α × β)) (k : α) (v : β) : List (α × β) :=
  if l.any (fun p => p.1 == k) then l.map (fun p => if p.1 == k then (k, v) else p)
  else l ++ [(k, v)]

/-- Generic association-list delete (JS Map.delete). -/
def aerase {α β : Type} [BEq α] (l : List (α × β)) (k : α) : List (α × β) :=
  l.filter (fun p => p.1 != k)

/-- The full state of one CssInJs instance.
pre is options.prefix; uuidCount the counter inside CssInJs.uuidGenerator;
nextId supplies fresh object identities for rules and media shells;
dynamicSheet/readonlySheet are sheet.dynamic and sheet.readonly;
shellContents maps a shell's mid to its nested cssRules; screenMap is
sheet.screen (dynamic/readonly sub-maps keyed by breakpoint, holding the
shell object); cache is sheetCSSRuleMap (sheet to (selectorText to rule));
vnodeMap is vnodeCssRuleMap (vnode to (sheet to selector set)); sys is the
watch collaborator's bookkeeping. -/
structure EngineState where
  pre : String
  uuidCount : Nat
  nextId : Nat
  dynamicSheet : List SheetEntry
  readonlySheet : List SheetEntry
  shellContents : List (Nat × List SheetEntry)
  screenMap : List ((SheetType × MediaScreen) × Nat)
  cache : List (SheetRef × List (String × Nat))
  vnodeMap : List (Nat × List (SheetRef × List String))
  sys : SubSys
deriving DecidableEq, Repr

/-- A freshly constructed CssInJs instance (two empty sheets, empty maps). -/
def initState (pfx : String) : EngineState :=
  { pre := pfx, uuidCount := 0, nextId := 0, dynamicSheet := [], readonlySheet := [],
    shellContents := [], screenMap := [], cache := [], vnodeMap := [],
    sys := { nextId := 0, owner := [], disposed := [] } }

/-- The cssRules list of the sheet a reference denotes (none if a screen
shell was never registered). -/
def getSheet (st : EngineState) : SheetRef → Option (List SheetEntry)
  | .dynamicS => some st.dynamicSheet
  | .readonlyS => some st.readonlySheet
  | .screenS t s => (alookup st.screenMap (t, s)).bind (fun mid => alookup st.shellContents mid)

/-- Write back the cssRules list of the sheet a reference denotes. -/
def setSheet (st : EngineState) (ref : SheetRef) (es : List SheetEntry) : EngineState :=
  match ref with
  | .dynamicS => { st with dynamicSheet := es }
  | .readonlyS => { st with readonlySheet := es }
  | .screenS t s =>
    match alookup st.screenMap (t, s) with
    | none => st
    | some mid => { st with shellContents := aset st.shellContents mid es }

/-- sheetCSSRuleMap.get(sheet)?.get(selectorText). -/
def cacheGet (st : EngineState) (ref : SheetRef) (sel : String) : Option Nat :=
  (alookup st.cache ref).bind (fun m => alookup m sel)

/-- CssInJs.cacheCssRule: create the per-sheet map on demand, then set. -/
def cacheCssRule (st : EngineState) (ref : SheetRef) (sel : String) (rid : Nat) : EngineState :=
  let m := (alookup st.cache ref).getD []
  { st with cache := aset st.cache ref (aset m sel rid) }

/-- Find a rule by identity inside one sheet. -/
def findRule (st : EngineState) (ref : SheetRef) (rid : Nat) : Option StyleRule :=
  (getSheet st ref).bind (fun es =>
    es.findSome? (fun e =>
      match e with
      | .style r => if r.id = rid then some r else none
      | .media _ _ => none))

/-- Mutate the rule with the given identity inside one sheet. -/
def updateRuleInSheet (st : EngineState) (ref : SheetRef) (rid : Nat)
    (f : StyleRule → StyleRule) : EngineState :=
  match getSheet st ref with
  | none => st
  | some es =>
    setSheet st ref (es.map (fun e =>
      match e with
      | .style r => if r.id = rid then .style (f r) else .style r
      | .media mid cond => .media mid cond))

/-- CssInJs.addRuleToSheet: sheet.insertRule(ruleText, sheet.cssRules.length)
appends; the host engine parses the generated rule text back into exactly the
formatted declaration triples of the style map. -/
def appendRule (st : EngineState) (ref : SheetRef) (r : StyleRule) : EngineState :=
  match getSheet st ref with
  | none => st
  | some es => setSheet st ref (es ++ [.style r])

/-- The call this.watchProxyStyleChange(cssRule, style) on a rule that lives
in a sheet: look the rule up, bind, write the rule and the watch bookkeeping
back. -/
def engineWatch (st : EngineState) (ref : SheetRef) (rid : Nat) (style : StyleInput) :
    EngineState :=
  match findRule st ref rid with
  | none => st
  | some r =>
    let p := watchProxyStyleChange r style st.sys
    let st' := updateRuleInSheet st ref rid (fun _ => p.1)
    { st' with sys := p.2 }

/-- CssInJs.updateCachedRule: a proxy style (re)binds the watcher, any other
style is diff-patched onto the cached rule in place. -/
def updateCachedRule (st : EngineState) (ref : SheetRef) (rid : Nat) (style : StyleInput) :
    EngineState :=
  if isProxy style then engineWatch st ref rid style
  else updateRuleInSheet st ref rid (fun r => replaceRuleStyle r style)

/-- CssInJs.insertRule: resolve the selector, consult the cache when caching
is on (a hit is updated in place and returned), otherwise serialise the
style (this is where a non-record style raises), append the new rule, cache
it when caching is on, and bind a watcher for signal styles. The returned
Nat is the identity of the CssStyleRule handed back to the caller. -/
def insertRule (st : EngineState) (ref : SheetRef) (style : StyleInput)
    (selector pfx : String) (cache : Bool) : EngineState × Except EngineError Nat :=
  match parseSelector st.pre st.uuidCount selector pfx with
  | (.error e, n') => ({ st with uuidCount := n' }, .error e)
  | (.ok (name, selectorText), n') =>
    let st := { st with uuidCount := n' }
    match (if cache then cacheGet st ref selectorText else none) with
    | some rid => (updateCachedRule st ref rid style, .ok rid)
    | none =>
      match cssStyleMapToCssRuleText style selectorText with
      | .error e => (st, .error e)
      | .ok _ruleText =>
        let rid := st.nextId
        let rule : StyleRule :=
          { id := rid, selectorText := selectorText,
            decls := buildFormated (jsEntries (unwrapRef style)),
            name := name, listener := none }
        let st := appendRule { st with nextId := rid + 1 } ref rule
        let st := if cache then cacheCssRule st ref selectorText rid else st
        let st := if isSignal style then engineWatch st ref rid style else st
        (st, .ok rid)

/-- JS Set construction: de-duplicate keeping first occurrences. -/
def dedupFirst (l : List String) : List String :=
  l.foldl (fun acc s => if acc.contains s then acc else acc ++ [s]) []

/-- The backward deletion scan of CssInJs.deleteRule, on the reversed
cssRules list: delete every style rule whose selector is still wanted
(removing the selector from the wanted set), skip non-style rules, and stop
as soon as the wanted set is exhausted. Returns the surviving (reversed)
entries and the selectors never found. -/
def deleteScan : List SheetEntry → List String → List SheetEntry × List String
  | [], sels => ([], sels)
  | e :: rest, sels =>
    if sels.isEmpty then (e :: rest, sels)
    else
      match e with
      | .style r =>
        if sels.contains r.selectorText then deleteScan rest (sels.erase r.selectorText)
        else
          let p := deleteScan rest sels
          (SheetEntry.style r :: p.1, p.2)
      | .media mid cond =>
        let p := deleteScan rest sels
        (SheetEntry.media mid cond :: p.1, p.2)

/-- CssInJs.deleteRule (the current, cache-driven version): bail out when the
sheet has no entry in sheetCSSRuleMap at all; otherwise format the selectors
into a set, keep only the ones present in the sheet's cache map (deleting
those map entries), and if any survive, scan the sheet backwards deleting the
matching style rules. -/
def deleteRule (st : EngineState) (ref : SheetRef) (selectors : List String) : EngineState :=
  match alookup st.cache ref with
  | none => st
  | some sheetMap =>
    let selSet := dedupFirst (selectors.map formatSelector)
    let toDel := selSet.filter (fun s => (alookup sheetMap s).isSome)
    let st := { st with cache := aset st.cache ref (sheetMap.filter (fun p => !toDel.contains p.1)) }
    if toDel.isEmpty then st
    else
      match getSheet st ref with
      | none => st
      | some es => setSheet st ref (deleteScan es.reverse toDel).1.reverse

/-- CssInJs.handleVNodeCssRules: record the rule's selector under
(vnode, sheet) in vnodeCssRuleMap. (The onDispose registration is modelled by
endScope below being invocable for the vnode.) -/
def handleVNodeCssRules (st : EngineState) (v : Nat) (ref : SheetRef) (rid : Nat) :
    EngineState :=
  match findRule st ref rid with
  | none => st
  | some r =>
    let m := (alookup st.vnodeMap v).getD []
    let sels := (alookup m ref).getD []
    let sels := if sels.contains r.selectorText then sels else sels ++ [r.selectorText]
    { st with vnodeMap := aset st.vnodeMap v (aset m ref sels) }

/-- The scope.onDispose callback registered by handleVNodeCssRules: for every
sheet recorded for the vnode, delete the recorded selectors, then clear the
record and drop the vnode's entry. -/
def endScope (st : EngineState) (v : Nat) : EngineState :=
  match alookup st.vnodeMap v with
  | none => { st with vnodeMap := aerase st.vnodeMap v }
  | some m =>
    let st := m.foldl (fun acc p => deleteRule acc p.1 p.2) st
    { st with vnodeMap := aerase st.vnodeMap v }

/-- CssInJs.getCssStyleSheet: a known breakpoint always resolves through the
screen map; a missing shell is created by inserting an empty at-rule into the
readonly sheet (regardless of the requested type) and registering it. With no
breakpoint the top-level sheet of the requested type is returned. -/
def getCssStyleSheet (st : EngineState) (screen : Option MediaScreen) (t : SheetType) :
    EngineState × SheetRef :=
  match screen with
  | none => (st, if t = .readonlyTy then .readonlyS else .dynamicS)
  | some s =>
    match alookup st.screenMap (t, s) with
    | some _ => (st, .screenS t s)
    | none =>
      let mid := st.nextId
      ({ st with nextId := mid + 1,
                 readonlySheet := st.readonlySheet ++ [.media mid (mediaScreenRule s)],
                 shellContents := st.shellContents ++ [(mid, [])],
                 screenMap := st.screenMap ++ [((t, s), mid)] },
       .screenS t s)

/-- The options record accepted by CssInJs.define. pfx is options.prefix. -/
structure CssRuleOptions where
  selector : String := ""
  screen : Option MediaScreen := none
  pfx : String := ""
  readonly : Option Bool := none
deriving DecidableEq, Repr

/-- CssInJs.define. The ambient getCurrentVNode() is the explicit vnode
argument. isStaticCssRule follows the source default (an explicit readonly
wins; otherwise a nonempty trimmed selector or the absence of a vnode makes
the rule static); static rules go to the readonly bucket and are cached,
dynamic ones to the dynamic bucket; a dynamic rule defined under a vnode is
recorded for scope teardown. -/
def define (st : EngineState) (style : StyleInput) (opts : CssRuleOptions)
    (vnode : Option Nat) : EngineState × Except EngineError Nat :=
  let isStatic : Bool :=
    match opts.readonly with
    | none => (jsTrim opts.selector != "") || vnode.isNone
    | some b => b
  let p := getCssStyleSheet st opts.screen (if isStatic then .readonlyTy else .dynamicTy)
  match insertRule p.1 p.2 style opts.selector opts.pfx isStatic with
  | (st2, .error e) => (st2, .error e)
  | (st2, .ok rid) =>
    if vnode.isSome && !isStatic then
      (handleVNodeCssRules st2 (vnode.getD 0) p.2 rid, .ok rid)
    else (st2, .ok rid)

/-! ## Observations on the state -/

/-- The style rules of one cssRules list (media shells are not style rules). -/
def styleRulesOf (es : List SheetEntry) : List StyleRule :=
  es.filterMap (fun e =>
    match e with
    | .style r => some r
    | .media _ _ => none)

/-- The media shells of one cssRules list. -/
def mediaEntriesOf (es : List SheetEntry) : List (Nat × String) :=
  es.filterMap (fun e =>
    match e with
    | .style _ => none
    | .media mid cond => some (mid, cond))

/-- Every style rule materialised anywhere in the engine: the dynamic sheet,
the readonly sheet, and the contents of every at-rule shell. -/
def allStyleRules (st : EngineState) : List StyleRule :=
  styleRulesOf st.dynamicSheet ++ styleRulesOf st.readonlySheet ++
    (st.shellContents.map (fun p => styleRulesOf p.2)).flatten

/-- The number of rules a sheet reports (sheet.cssRules.length). -/
def ruleCount (st : EngineState) (ref : SheetRef) : Nat :=
  ((getSheet st ref).getD []).length

/-! ## The legacy removal path

The older src/css-in-js.ts and src/helper.ts variants of CssInJs.deleteRule
normalise the selector by prepending a dot whenever the trimmed selector does
not already start with one, then scan the sheet backwards and delete the
first style rule whose selectorText matches exactly. -/

/-- Delete the first matching style rule of a reversed cssRules list. -/
def deleteFirstRev : List SheetEntry → String → List SheetEntry
  | [], _ => []
  | e :: rest, sel =>
    match e with
    | .style r =>
      if r.selectorText == sel then rest else SheetEntry.style r :: deleteFirstRev rest sel
    | .media mid cond => SheetEntry.media mid cond :: deleteFirstRev rest sel

namespace Legacy

/-- The legacy CssInJs.deleteRule (src/css-in-js.ts lines 440-451 and
src/helper.ts lines 417-428). -/
def deleteRule (sheet : List SheetEntry) (selectorText : String) : List SheetEntry :=
  let s := jsTrim selectorText
  let s := if jsStartsWith s "." then s else "." ++ s
  (deleteFirstRev sheet.reverse s).reverse

end Legacy

/-! ## The binding world for the subscription invariant

watchProxyStyleChange and listener disposal, run over an arbitrary
collection of rules, so that "every rule holds at most one active
subscription" can be stated as an invariant of all reachable states. -/

/-- A collection of rules together with the watch bookkeeping. -/
structure BindWorld where
  rules : List StyleRule
  sys : SubSys
deriving DecidableEq, Repr

/-- One event: binding a (reactive) style source to the i-th rule via
watchProxyStyleChange, or disposing the i-th rule's current listener. -/
inductive BindOp
  | bind (i : Nat) (style : StyleInput)
  | dispose (i : Nat)
deriving DecidableEq, Repr

/-- Apply one event to the world. -/
def stepOp (w : BindWorld) : BindOp → BindWorld
  | .bind i style =>
    match w.rules[i]? with
    | none => w
    | some r =>
      let p := watchProxyStyleChange r style w.sys
      { rules := w.rules.set i p.1, sys := p.2 }
  | .dispose i =>
    match w.rules[i]? with
    | none => w
    | some r =>
      let p := disposeListener r w.sys
      { rules := w.rules.set i p.1, sys := p.2 }

/-- Run a sequence of events. -/
def runOps (w : BindWorld) (ops : List BindOp) : BindWorld :=
  ops.foldl stepOp w

/-- The subscriptions currently active for a given rule identity. -/
def activeSubsFor (w : BindWorld) (rid : Nat) : List (Nat × Nat) :=
  w.sys.owner.filter (fun p => p.2 == rid && !w.sys.disposed.contains p.1)

/-- Well-formedness of a binding world: ids are bounded by the counter,
subscription ids are unique, rule identities are unique, a rule's listener is
an undisposed subscription created for it, and every undisposed subscription
is the listener of the rule it was created for. -/
structure WorldWF (w : BindWorld) : Prop where
  ownerBound : ∀ p ∈ w.sys.owner, p.1 < w.sys.nextId
  disposedBound : ∀ s ∈ w.sys.disposed, s < w.sys.nextId
  ownerNodup : (w.sys.owner.map (fun p => p.1)).Nodup
  rulesNodup : (w.rules.map (fun r => r.id)).Nodup
  listenerSound : ∀ r ∈ w.rules, ∀ sid, r.listener = some sid →
    (sid, r.id) ∈ w.sys.owner ∧ sid ∉ w.sys.disposed
  activeAttached : ∀ p ∈ w.sys.owner, p.1 ∉ w.sys.disposed →
    ∃ r ∈ w.rules, r.id = p.2 ∧ r.listener = some p.1

/-! # Theorems -/

/-! ## Association list lemmas -/

theorem find?_overwrite_self {α β : Type} [BEq α] [LawfulBEq α] (l : List (α × β)) (k : α)
    (v : β) (hany : l.any (fun p => p.1 == k) = true) :
    (l.map (fun p => if p.1 == k then (k, v) else p)).find? (fun p => p.1 == k)
      = some (k, v) := by
  induction l with
  | nil => simp at hany
  | cons p t ih =>
    by_cases hp : p.1 = k
    · simp [beq_iff_eq.mpr hp]
    · have hpb : (p.1 == k) = false := beq_false_of_ne hp
      have ht : t.any (fun p => p.1 == k) = true := by
        simpa [List.any_cons, hpb] using hany
      simpa [hpb] using ih ht

theorem find?_overwrite_ne {α β : Type} [BEq α] [LawfulBEq α] (l : List (α × β)) (k k' : α)
    (v : β) (hk : k' ≠ k) :
    (l.map (fun p => if p.1 == k then (k, v) else p)).find? (fun p => p.1 == k')
      = l.find? (fun p => p.1 == k') := by
  induction l with
  | nil => rfl
  | cons p t ih =>
    by_cases hp : p.1 = k
    · have h1 : ((k : α) == k') = false := beq_false_of_ne (Ne.symm hk)
      have h2 : (p.1 == k') = false := by rw [hp]; exact h1
      simpa [beq_iff_eq.mpr hp, h1, h2] using ih
    · have hpb : (p.1 == k) = false := beq_false_of_ne hp
      by_cases hq : p.1 = k'
      · simp [hpb, beq_iff_eq.mpr hq]
      · simpa [hpb, beq_false_of_ne hq] using ih

theorem alookup_aset {α β : Type} [BEq α] [LawfulBEq α] (l : List (α × β)) (k k' : α) (v : β) :
    alookup (aset l k v) k' = if k' == k then some v else alookup l k' := by
  unfold aset alookup
  by_cases hany : l.any (fun p => p.1 == k) = true
  · rw [if_pos hany]
    by_cases hk : k' = k
    · subst hk
      rw [if_pos (beq_iff_eq.mpr rfl), find?_overwrite_self l k' v hany]
      rfl
    · rw [if_neg (by simp [beq_false_of_ne hk]), find?_overwrite_ne l k k' v hk]
  · rw [if_neg hany, List.find?_append]
    by_cases hk : k' = k
    · subst hk
      have hnone : l.find? (fun p => p.1 == k') = none := by
        rw [List.find?_eq_none]
        intro x hx
        simp only [List.any_eq_true, not_exists, not_and] at hany
        intro hcontra
        exact hany x hx hcontra
      rw [if_pos (beq_iff_eq.mpr rfl), hnone]
      simp
    · have hsing : ([(k, v)] : List (α × β)).find? (fun p => p.1 == k') = none := by
        simp [beq_false_of_ne (Ne.symm hk)]
      rw [if_neg (by simp [beq_false_of_ne hk]), hsing]
      cases l.find? (fun p => p.1 == k') <;> rfl

/-- parseSelector rejects every selector whose trimmed form starts with an
at-sign (and is nonempty), without consuming a generated name. -/
theorem parseSelector_at_error (p : String) (c : Nat) (selector pfx : String)
    (h1 : jsTrim selector ≠ "") (h2 : jsStartsWith (jsTrim selector) "@" = true) :
    parseSelector p c selector pfx = (.error .invalidSelector, c) := by
  unfold parseSelector
  simp [h1, h2]

/-- insertRule propagates the at-rule rejection before touching anything. -/
theorem insertRule_at_error (st : EngineState) (ref : SheetRef) (style : StyleInput)
    (sel pfx : String) (cache : Bool)
    (h1 : jsTrim sel ≠ "") (h2 : jsStartsWith (jsTrim sel) "@" = true) :
    insertRule st ref style sel pfx cache = (st, .error .invalidSelector) := by
  unfold insertRule
  rw [parseSelector_at_error st.pre st.uuidCount sel pfx h1 h2]

/-- getCssStyleSheet never adds or removes a style rule: it either returns
the state unchanged or appends a fresh empty at-rule shell. -/
theorem getCssStyleSheet_allStyleRules (st : EngineState) (screen : Option MediaScreen)
    (t : SheetType) :
    allStyleRules (getCssStyleSheet st screen t).1 = allStyleRules st := by
  cases screen with
  | none => rfl
  | some s =>
    unfold getCssStyleSheet
    cases h : alookup st.screenMap (t, s) with
    | some mid => simp [h]
    | none => simp [h, allStyleRules, styleRulesOf, List.filterMap_append]

/-- getCssStyleSheet leaves the rule cache untouched. -/
theorem getCssStyleSheet_cache (st : EngineState) (screen : Option MediaScreen)
    (t : SheetType) : (getCssStyleSheet st screen t).1.cache = st.cache := by
  cases screen with
  | none => rfl
  | some s =>
    unfold getCssStyleSheet
    cases h : alookup st.screenMap (t, s) with
    | some mid => simp [h]
    | none => simp [h]

/-- Claim C4: for every selector whose trimmed form is nonempty and starts
with '@', define fails with the InvalidSelector error, no style rule is
inserted anywhere (at most an empty at-rule shell for a requested breakpoint
is created), and the rule cache is unchanged. -/
theorem define_rejects_at_selector (st : EngineState) (style : StyleInput)
    (opts : CssRuleOptions) (vnode : Option Nat)
    (h1 : jsTrim opts.selector ≠ "") (h2 : jsStartsWith (jsTrim opts.selector) "@" = true) :
    (define st style opts vnode).2 = .error .invalidSelector ∧
    allStyleRules (define st style opts vnode).1 = allStyleRules st ∧
    (define st style opts vnode).1.cache = st.cache := by
  simp only [define]
  rw [insertRule_at_error _ _ style opts.selector opts.pfx _ h1 h2]
  exact ⟨rfl, getCssStyleSheet_allStyleRules st opts.screen _,
    getCssStyleSheet_cache st opts.screen _⟩

/-- Witness for define_rejects_at_selector: a concrete at-rule selector is
rejected by a concrete engine state. -/
theorem define_rejects_at_selector_witness :
    jsTrim " @media x" ≠ "" ∧ jsStartsWith (jsTrim " @media x") "@" = true ∧
    (define (initState "") (.record [("color", .str "red")])
      { selector := " @media x" } none).2 = .error .invalidSelector :=
  ⟨by decide, by decide,
    (define_rejects_at_selector (initState "") (.record [("color", .str "red")])
      { selector := " @media x" } none (by decide) (by decide)).1⟩

/-! ## Cache hit and miss behaviour of insertRule and define -/

/-- cacheCssRule makes the cached rule visible to cacheGet. -/
theorem cacheGet_cacheCssRule (st : EngineState) (ref : SheetRef) (sel : String) (rid : Nat) :
    cacheGet (cacheCssRule st ref sel rid) ref sel = some rid := by
  unfold cacheGet cacheCssRule
  simp [alookup_aset]

/-- insertRule on a dedupe cache hit: the cached handle is updated in place
and returned; nothing is appended. -/
theorem insertRule_cache_hit (st : EngineState) (ref : SheetRef) (style : StyleInput)
    (sel pfx : String) (nm selTxt : String) (rid : Nat)
    (hp : parseSelector st.pre st.uuidCount sel pfx = (.ok (nm, selTxt), st.uuidCount))
    (hhit : cacheGet st ref selTxt = some rid) :
    insertRule st ref style sel pfx true = (updateCachedRule st ref rid style, .ok rid) := by
  unfold insertRule
  rw [hp]
  have heta : ({ st with uuidCount := st.uuidCount } : EngineState) = st := rfl
  simp only [heta, if_pos, hhit]

/-- insertRule on a dedupe cache miss with a plain record style: the rule is
appended to the sheet (with the formatted declarations of the record), cached
under its selector text, and its fresh identity returned. -/
theorem insertRule_miss_record (st : EngineState) (ref : SheetRef)
    (m : List (String × StyleValue)) (sel pfx : String) (nm selTxt : String)
    (hp : parseSelector st.pre st.uuidCount sel pfx = (.ok (nm, selTxt), st.uuidCount))
    (hmiss : cacheGet st ref selTxt = none) :
    insertRule st ref (.record m) sel pfx true =
      (cacheCssRule
        (appendRule { st with nextId := st.nextId + 1 } ref
          { id := st.nextId, selectorText := selTxt, decls := buildFormated m,
            name := nm, listener := none })
        ref selTxt st.nextId, .ok st.nextId) := by
  unfold insertRule
  rw [hp]
  have heta : ({ st with uuidCount := st.uuidCount } : EngineState) = st := rfl
  simp only [heta, if_pos, hmiss]
  rfl

/-- define with an explicit readonly flag and no breakpoint targets the
readonly sheet; on a cache hit it returns the cached handle after an in-place
update. -/
theorem define_cache_hit (st : EngineState) (style : StyleInput) (sel pfx : String)
    (vnode : Option Nat) (nm selTxt : String) (rid : Nat)
    (hp : parseSelector st.pre st.uuidCount sel pfx = (.ok (nm, selTxt), st.uuidCount))
    (hhit : cacheGet st .readonlyS selTxt = some rid) :
    define st style { selector := sel, pfx := pfx, readonly := some true } vnode
      = (updateCachedRule st .readonlyS rid style, .ok rid) := by
  have hrt : define st style { selector := sel, pfx := pfx, readonly := some true } vnode
      = (match insertRule st .readonlyS style sel pfx true with
         | (st2, .error e) => (st2, .error e)
         | (st2, .ok rid) =>
           if vnode.isSome && !true then
             (handleVNodeCssRules st2 (vnode.getD 0) .readonlyS rid, .ok rid)
           else (st2, .ok rid)) := rfl
  rw [hrt, insertRule_cache_hit st .readonlyS style sel pfx nm selTxt rid hp hhit]
  simp

/-- define with an explicit readonly flag and no breakpoint, on a cache
miss with a record style: the rule is appended to the readonly sheet and
cached. -/
theorem define_miss_record (st : EngineState) (m : List (String × StyleValue))
    (sel pfx : String) (vnode : Option Nat) (nm selTxt : String)
    (hp : parseSelector st.pre st.uuidCount sel pfx = (.ok (nm, selTxt), st.uuidCount))
    (hmiss : cacheGet st .readonlyS selTxt = none) :
    define st (.record m) { selector := sel, pfx := pfx, readonly := some true } vnode
      = (cacheCssRule
          (appendRule { st with nextId := st.nextId + 1 } .readonlyS
            { id := st.nextId, selectorText := selTxt, decls := buildFormated m,
              name := nm, listener := none })
          .readonlyS selTxt st.nextId, .ok st.nextId) := by
  have hrt : define st (.record m) { selector := sel, pfx := pfx, readonly := some true } vnode
      = (match insertRule st .readonlyS (.record m) sel pfx true with
         | (st2, .error e) => (st2, .error e)
         | (st2, .ok rid) =>
           if vnode.isSome && !true then
             (handleVNodeCssRules st2 (vnode.getD 0) .readonlyS rid, .ok rid)
           else (st2, .ok rid)) := rfl
  rw [hrt, insertRule_miss_record st .readonlyS m sel pfx nm selTxt hp hmiss]
  simp

/-- updateCachedRule with a non-proxy style patches the rule in place. -/
theorem updateCachedRule_nonproxy (st : EngineState) (ref : SheetRef) (rid : Nat)
    (style : StyleInput) (h : isProxy style = false) :
    updateCachedRule st ref rid style
      = updateRuleInSheet st ref rid (fun r => replaceRuleStyle r style) := by
  unfold updateCachedRule
  rw [h]
  simp

/-- updateRuleInSheet keeps the readonly sheet the same length. -/
theorem updateRuleInSheet_readonly_count (st : EngineState) (rid : Nat)
    (f : StyleRule → StyleRule) :
    ruleCount (updateRuleInSheet st .readonlyS rid f) .readonlyS = ruleCount st .readonlyS := by
  simp [updateRuleInSheet, ruleCount, getSheet, setSheet]

/-- Claim C1 (amended): on a define call whose canonical selector already
has a cached rule in the target sheet and whose dedupe flag is set, the
existing rule handle is returned and no new rule is inserted (the sheet's
rule count is unchanged) — but the cached rule's declaration block IS
diff-patched in place against the newly supplied (non-reactive) style map,
via replaceRuleStyle. -/
theorem define_dedup_hit_patches (st : EngineState) (m : List (String × StyleValue))
    (sel pfx : String) (vnode : Option Nat) (nm selTxt : String) (rid : Nat)
    (hp : parseSelector st.pre st.uuidCount sel pfx = (.ok (nm, selTxt), st.uuidCount))
    (hhit : cacheGet st .readonlyS selTxt = some rid) :
    define st (.record m) { selector := sel, pfx := pfx, readonly := some true } vnode
      = (updateRuleInSheet st .readonlyS rid (fun r => replaceRuleStyle r (.record m)),
         .ok rid) ∧
    ruleCount (define st (.record m)
        { selector := sel, pfx := pfx, readonly := some true } vnode).1 .readonlyS
      = ruleCount st .readonlyS := by
  have h1 := define_cache_hit st (.record m) sel pfx vnode nm selTxt rid hp hhit
  have h2 := updateCachedRule_nonproxy st .readonlyS rid (.record m) rfl
  refine ⟨h1.trans (by rw [h2]), ?_⟩
  rw [h1, h2]
  exact updateRuleInSheet_readonly_count st rid _

/-- Witness for define_dedup_hit_patches: a concrete engine state with a
cached rule for ".a" is patched and its handle returned. -/
theorem define_dedup_hit_patches_witness :
    let st := (define (initState "")
      (.record [("color", .str "red"), ("fontSize", .str "12px")])
      { selector := ".a", readonly := some true } none).1
    define st (.record [("color", .str "blue")])
        { selector := ".a", readonly := some true } none
      = (updateRuleInSheet st .readonlyS 0
          (fun r => replaceRuleStyle r (.record [("color", .str "blue")])), .ok 0) ∧
    ruleCount (define st (.record [("color", .str "blue")])
        { selector := ".a", readonly := some true } none).1 .readonlyS
      = ruleCount st .readonlyS := by
  refine (define_dedup_hit_patches _ [("color", .str "blue")] ".a" "" none "a" ".a" 0
    ?_ ?_).imp (fun h => h) (fun h => h)
  · decide
  · decide

/-- Claim C7: calling define twice with an identical selector and the dedupe
flag set yields the same rule handle both times, and the readonly sheet's
rule count after the second call exceeds the count before the first call by
exactly one. -/
theorem define_twice_dedup (st : EngineState) (m : List (String × StyleValue))
    (sel pfx : String) (vnode : Option Nat) (nm selTxt : String)
    (hp : parseSelector st.pre st.uuidCount sel pfx = (.ok (nm, selTxt), st.uuidCount))
    (hmiss : cacheGet st .readonlyS selTxt = none) :
    (define st (.record m) { selector := sel, pfx := pfx, readonly := some true } vnode).2
      = .ok st.nextId ∧
    (define (define st (.record m)
        { selector := sel, pfx := pfx, readonly := some true } vnode).1
      (.record m) { selector := sel, pfx := pfx, readonly := some true } vnode).2
      = .ok st.nextId ∧
    ruleCount (define (define st (.record m)
        { selector := sel, pfx := pfx, readonly := some true } vnode).1
      (.record m) { selector := sel, pfx := pfx, readonly := some true } vnode).1 .readonlyS
      = ruleCount st .readonlyS + 1 := by
  have h1 := define_miss_record st m sel pfx vnode nm selTxt hp hmiss
  generalize hA : cacheCssRule
    (appendRule { st with nextId := st.nextId + 1 } .readonlyS
      { id := st.nextId, selectorText := selTxt, decls := buildFormated m,
        name := nm, listener := none })
    .readonlyS selTxt st.nextId = stA at h1
  have hpre : stA.pre = st.pre := by rw [← hA]; rfl
  have hcnt : stA.uuidCount = st.uuidCount := by rw [← hA]; rfl
  have hp2 : parseSelector stA.pre stA.uuidCount sel pfx = (.ok (nm, selTxt), stA.uuidCount) := by
    rw [hpre, hcnt]; exact hp
  have hhit2 : cacheGet stA .readonlyS selTxt = some st.nextId := by
    rw [← hA]; exact cacheGet_cacheCssRule _ _ _ _
  have h2 := define_cache_hit stA (.record m) sel pfx vnode nm selTxt st.nextId hp2 hhit2
  have h2' := updateCachedRule_nonproxy stA .readonlyS st.nextId (.record m) rfl
  have hlen : stA.readonlySheet.length = st.readonlySheet.length + 1 := by
    rw [← hA]; simp [cacheCssRule, appendRule, getSheet, setSheet]
  refine ⟨by rw [h1], by rw [h1, h2], ?_⟩
  rw [h1, h2, h2', updateRuleInSheet_readonly_count]
  show stA.readonlySheet.length = st.readonlySheet.length + 1
  exact hlen

/-- Witness for define_twice_dedup on a concrete fresh engine. -/
theorem define_twice_dedup_witness :
    (define (initState "") (.record [("color", .str "red")])
      { selector := ".a", readonly := some true } none).2 = .ok 0 ∧
    (define (define (initState "") (.record [("color", .str "red")])
        { selector := ".a", readonly := some true } none).1
      (.record [("color", .str "red")])
      { selector := ".a", readonly := some true } none).2 = .ok 0 ∧
    ruleCount (define (define (initState "") (.record [("color", .str "red")])
        { selector := ".a", readonly := some true } none).1
      (.record [("color", .str "red")])
      { selector := ".a", readonly := some true } none).1 .readonlyS
      = ruleCount (initState "") .readonlyS + 1 :=
  define_twice_dedup (initState "") [("color", .str "red")] ".a" "" none "a" ".a"
    (by decide) (by decide)

/-! ## The diff-and-patch engine (replaceRuleStyle) -/

/-- Erasing one key from the formatted dictionary does not change lookups of
other keys. -/
theorem fsLookup_fsErase_ne (fs : List StyleDecl) (k k' : String) (h : k' ≠ k) :
    fsLookup (fsErase fs k) k' = fsLookup fs k' := by
  unfold fsLookup fsErase
  induction fs with
  | nil => rfl
  | cons f t ih =>
    by_cases hf : f.prop = k
    · have h1 : (f.prop != k) = false := by simp [hf]
      have h2 : (f.prop == k') = false := by
        apply beq_false_of_ne
        rw [hf]
        exact fun hc => h hc.symm
      simp only [List.filter_cons, h1, Bool.false_eq_true, if_false]
      rw [ih, List.find?_cons_of_neg _ (by simp [h2])]
    · have h1 : (f.prop != k) = true := by simp [hf]
      by_cases hq : f.prop = k'
      · simp only [List.filter_cons, h1, if_true]
        rw [List.find?_cons_of_pos _ (by simp [hq]), List.find?_cons_of_pos _ (by simp [hq])]
      · simp only [List.filter_cons, h1, if_true]
        rw [List.find?_cons_of_neg _ (by simp [beq_false_of_ne hq]),
          List.find?_cons_of_neg _ (by simp [beq_false_of_ne hq])]
        exact ih

/-- The backward patch loop, described declaratively: every declared property
with an entry in the formatted dictionary survives with the new value and
priority, every other declared property is removed, and exactly the
dictionary entries whose key was not declared remain to be appended. -/
theorem applyPatchRev_spec (rd fs : List StyleDecl)
    (hnd : (rd.map (fun d => d.prop)).Nodup)
    (hfs : ∀ f ∈ fs, f.value ≠ "") :
    applyPatchRev rd fs
      = (rd.reverse.filterMap (fun d => (fsLookup fs d.prop).map
           (fun f => (⟨d.prop, f.value, f.priority⟩ : StyleDecl))),
         fs.filter (fun f => !(rd.map (fun d => d.prop)).contains f.prop)) := by
  induction rd generalizing fs with
  | nil => simp [applyPatchRev]
  | cons d rest ih =>
    have hd_nin : d.prop ∉ rest.map (fun x => x.prop) := (List.nodup_cons.mp hnd).1
    have hnd' : (rest.map (fun x => x.prop)).Nodup := (List.nodup_cons.mp hnd).2
    cases hfind : fsLookup fs d.prop with
    | none =>
      have hnotin : ∀ f ∈ fs, (f.prop == d.prop) = false := by
        intro f hf
        have := List.find?_eq_none.mp hfind f hf
        simpa using this
      simp only [applyPatchRev, hfind]
      rw [ih fs hnd' hfs]
      have hkept : (d :: rest).reverse.filterMap (fun x => (fsLookup fs x.prop).map
            (fun f => (⟨x.prop, f.value, f.priority⟩ : StyleDecl)))
          = rest.reverse.filterMap (fun x => (fsLookup fs x.prop).map
            (fun f => (⟨x.prop, f.value, f.priority⟩ : StyleDecl))) := by
        rw [List.reverse_cons, List.filterMap_append]
        simp [hfind]
      have hfs2 : fs.filter (fun f => !((d :: rest).map (fun x => x.prop)).contains f.prop)
          = fs.filter (fun f => !(rest.map (fun x => x.prop)).contains f.prop) := by
        apply List.filter_congr
        intro f hf
        rw [List.map_cons, List.contains_cons, hnotin f hf, Bool.false_or]
      rw [hkept, hfs2]
    | some f =>
      have hfv : f.value ≠ "" := hfs f (List.mem_of_find?_eq_some hfind)
      have hfs' : ∀ g ∈ fsErase fs d.prop, g.value ≠ "" := by
        intro g hg
        exact hfs g (List.mem_of_mem_filter hg)
      simp only [applyPatchRev, hfind]
      rw [if_neg hfv, ih (fsErase fs d.prop) hnd' hfs']
      have hkept : rest.reverse.filterMap (fun x => (fsLookup (fsErase fs d.prop) x.prop).map
            (fun f => (⟨x.prop, f.value, f.priority⟩ : StyleDecl)))
          = rest.reverse.filterMap (fun x => (fsLookup fs x.prop).map
            (fun f => (⟨x.prop, f.value, f.priority⟩ : StyleDecl))) := by
        apply List.filterMap_congr
        intro x hx
        have hxr : x ∈ rest := List.mem_reverse.mp hx
        have hxne : x.prop ≠ d.prop := by
          intro he
          exact hd_nin (he ▸ List.mem_map_of_mem (fun y => y.prop) hxr)
        rw [fsLookup_fsErase_ne fs d.prop x.prop hxne]
      have hrhs : (d :: rest).reverse.filterMap (fun x => (fsLookup fs x.prop).map
            (fun f => (⟨x.prop, f.value, f.priority⟩ : StyleDecl)))
          = rest.reverse.filterMap (fun x => (fsLookup fs x.prop).map
            (fun f => (⟨x.prop, f.value, f.priority⟩ : StyleDecl)))
            ++ [⟨d.prop, f.value, f.priority⟩] := by
        rw [List.reverse_cons, List.filterMap_append]
        simp [hfind]
      have hfs2 : (fsErase fs d.prop).filter
            (fun g => !(rest.map (fun x => x.prop)).contains g.prop)
          = fs.filter (fun g => !((d :: rest).map (fun x => x.prop)).contains g.prop) := by
        unfold fsErase
        rw [List.filter_filter]
        apply List.filter_congr
        intro g _
        simp only [List.map_cons, List.contains_cons, Bool.not_or, bne]
        rw [Bool.and_comm]
      rw [hkept, hrhs, hfs2]

/-- Claim C2: patching a live rule against a new style map removes every
property that is set on the rule but absent (or invalid) in the new map, and
sets or overwrites every property present in the new map with its formatted
value and priority (the trailing !important marker travels into the
priority slot via buildFormated); the properties of the new map that were
not yet declared are appended. Hypotheses: the declaration has no duplicate
property names (a CSSStyleDeclaration never does), the textual no-op
shortcut does not fire, and the formatted values are nonempty (formatStyleValue
never produces an empty value). -/
theorem replaceRuleStyle_spec (rule : StyleRule) (style : StyleInput)
    (hnd : (rule.decls.map (fun d => d.prop)).Nodup)
    (hne : declsCssText rule.decls
        ≠ rule.selectorText ++ " \x7b " ++ ruleBodyTextSp (jsEntries (unwrapRef style)) ++ "\x7d")
    (hfs : ∀ f ∈ buildFormated (jsEntries (unwrapRef style)), f.value ≠ "") :
    (replaceRuleStyle rule style).decls
      = rule.decls.filterMap (fun d =>
          (fsLookup (buildFormated (jsEntries (unwrapRef style))) d.prop).map
            (fun f => (⟨d.prop, f.value, f.priority⟩ : StyleDecl)))
        ++ (buildFormated (jsEntries (unwrapRef style))).filter
            (fun f => !(rule.decls.map (fun d => d.prop)).contains f.prop) := by
  have hndr : (rule.decls.reverse.map (fun d => d.prop)).Nodup := by
    rw [List.map_reverse]
    exact List.nodup_reverse.mpr hnd
  simp only [replaceRuleStyle, if_neg hne]
  rw [applyPatchRev_spec rule.decls.reverse (buildFormated (jsEntries (unwrapRef style)))
    hndr hfs]
  simp only [List.reverse_reverse]
  have hself : ((buildFormated (jsEntries (unwrapRef style))).filter
        (fun f => !(rule.decls.reverse.map (fun d => d.prop)).contains f.prop)).filter
        (fun f => f.value != "")
      = (buildFormated (jsEntries (unwrapRef style))).filter
        (fun f => !(rule.decls.map (fun d => d.prop)).contains f.prop) := by
    rw [List.filter_filter]
    apply List.filter_congr
    intro g hg
    have hgv : (g.value != "") = true := by
      simpa using hfs g hg
    rw [hgv, Bool.true_and, List.map_reverse]
    by_cases hm : g.prop ∈ rule.decls.map (fun d => d.prop)
    · have h1 : ((rule.decls.map (fun d => d.prop)).reverse.contains g.prop) = true := by
        simp only [List.elem_eq_mem, decide_eq_true_eq, List.mem_reverse]
        exact hm
      have h2 : ((rule.decls.map (fun d => d.prop)).contains g.prop) = true := by
        simp only [List.elem_eq_mem, decide_eq_true_eq]
        exact hm
      rw [h1, h2]
    · have h1 : ((rule.decls.map (fun d => d.prop)).reverse.contains g.prop) = false := by
        simp only [List.elem_eq_mem, decide_eq_false_iff_not, List.mem_reverse]
        exact hm
      have h2 : ((rule.decls.map (fun d => d.prop)).contains g.prop) = false := by
        simp only [List.elem_eq_mem, decide_eq_false_iff_not]
        exact hm
      rw [h1, h2]
  rw [hself]

/-- Witness for replaceRuleStyle_spec: patching a rule holding
color red and font-size 12px with just color blue leaves exactly
color blue, and an !important value travels into the priority slot. -/
theorem replaceRuleStyle_spec_witness :
    (replaceRuleStyle
      { id := 0, selectorText := ".x",
        decls := [⟨"color", "red", ""⟩, ⟨"font-size", "12px", ""⟩],
        name := "x", listener := none }
      (.record [("color", .str "blue")])).decls = [⟨"color", "blue", ""⟩] ∧
    (replaceRuleStyle
      { id := 1, selectorText := ".y", decls := [⟨"color", "red", ""⟩],
        name := "y", listener := none }
      (.record [("color", .str "blue !important")])).decls
      = [⟨"color", "blue", "important"⟩] :=
  ⟨(replaceRuleStyle_spec
      { id := 0, selectorText := ".x",
        decls := [⟨"color", "red", ""⟩, ⟨"font-size", "12px", ""⟩],
        name := "x", listener := none }
      (.record [("color", .str "blue")]) (by decide) (by decide) (by decide)).trans
    (by decide),
   (replaceRuleStyle_spec
      { id := 1, selectorText := ".y", decls := [⟨"color", "red", ""⟩],
        name := "y", listener := none }
      (.record [("color", .str "blue !important")]) (by decide) (by decide) (by decide)).trans
    (by decide)⟩

/-! ## Invalid style inputs -/

/-- A style whose unwrapped form is not a record object is not a proxy. -/
theorem isProxy_false_of_not_record (style : StyleInput)
    (hinv : isRecordObject (unwrapRef style) = false) : isProxy style = false := by
  cases style <;> first | rfl | simp [isRecordObject, unwrapRef] at hinv

/-- insertRule raises InvalidStyleInput for a non-record style as soon as the
cache misses (or caching is off): the selector has already been parsed (and a
generated name consumed), but no sheet or cache mutation has happened. -/
theorem insertRule_invalid (st : EngineState) (ref : SheetRef) (style : StyleInput)
    (sel pfx : String) (c : Bool) (nm selTxt : String) (n' : Nat)
    (hp : parseSelector st.pre st.uuidCount sel pfx = (.ok (nm, selTxt), n'))
    (hinv : isRecordObject (unwrapRef style) = false)
    (hnohit : (if c then cacheGet { st with uuidCount := n' } ref selTxt else none) = none) :
    insertRule st ref style sel pfx c
      = ({ st with uuidCount := n' }, .error .invalidStyleInput) := by
  unfold insertRule
  rw [hp]
  simp only [hnohit, cssStyleMapToCssRuleText, hinv]
  rfl

/-- Claim C5 (amended): a style argument that is neither a record nor a
reactive wrapper is rejected with InvalidStyleInput whenever the call does
not hit the dedupe cache: under a vnode, and outside a vnode when the
generated selector is uncached, define fails and the only state change is the
consumed uuid counter (no sheet or cache mutation, so every rule count is
unchanged). But when the dedupe cache does hold the canonical selector, the
invalid style is not rejected: the cached rule is diff-patched against it (for
null this empties the declaration) and returned successfully. -/
theorem define_invalid_style_behaviour (st : EngineState) (style : StyleInput)
    (hinv : isRecordObject (unwrapRef style) = false) :
    (∀ v : Nat, define st style {} (some v)
        = ({ st with uuidCount := st.uuidCount + 1 }, .error .invalidStyleInput)) ∧
    (cacheGet st .readonlyS ("." ++ (st.pre ++ "" ++ uuidGen st.uuidCount)) = none →
      define st style {} none
        = ({ st with uuidCount := st.uuidCount + 1 }, .error .invalidStyleInput)) ∧
    (∀ sel pfx vnode nm selTxt rid,
        parseSelector st.pre st.uuidCount sel pfx = (.ok (nm, selTxt), st.uuidCount) →
        cacheGet st .readonlyS selTxt = some rid →
        define st style { selector := sel, pfx := pfx, readonly := some true } vnode
          = (updateRuleInSheet st .readonlyS rid (fun r => replaceRuleStyle r style), .ok rid)) := by
  refine ⟨?_, ?_, ?_⟩
  · intro v
    have hrt : define st style {} (some v)
        = (match insertRule st .dynamicS style "" "" false with
           | (st2, .error e) => (st2, .error e)
           | (st2, .ok rid) => (handleVNodeCssRules st2 v .dynamicS rid, .ok rid)) := rfl
    rw [hrt, insertRule_invalid st .dynamicS style "" "" false
      (st.pre ++ "" ++ uuidGen st.uuidCount) ("." ++ (st.pre ++ "" ++ uuidGen st.uuidCount))
      (st.uuidCount + 1) rfl hinv rfl]
  · intro hmiss
    have hrt : define st style {} none
        = (match insertRule st .readonlyS style "" "" true with
           | (st2, .error e) => (st2, .error e)
           | (st2, .ok rid) => (st2, .ok rid)) := rfl
    have hnohit : (if true then
        cacheGet { st with uuidCount := st.uuidCount + 1 } .readonlyS
          ("." ++ (st.pre ++ "" ++ uuidGen st.uuidCount)) else none) = none := hmiss
    rw [hrt, insertRule_invalid st .readonlyS style "" "" true
      (st.pre ++ "" ++ uuidGen st.uuidCount) ("." ++ (st.pre ++ "" ++ uuidGen st.uuidCount))
      (st.uuidCount + 1) rfl hinv hnohit]
  · intro sel pfx vnode nm selTxt rid hp hhit
    have h1 := define_cache_hit st style sel pfx vnode nm selTxt rid hp hhit
    rw [h1, updateCachedRule_nonproxy st .readonlyS rid style
      (isProxy_false_of_not_record style hinv)]

/-- Witness for define_invalid_style_behaviour: a fresh engine rejects a
null style defined under a vnode, leaving only the uuid counter advanced. -/
theorem define_invalid_style_behaviour_witness :
    isRecordObject (unwrapRef .nullVal) = false ∧
    define (initState "") .nullVal {} (some 5)
      = ({ initState "" with uuidCount := 1 }, .error .invalidStyleInput) :=
  ⟨by decide, (define_invalid_style_behaviour (initState "") .nullVal (by decide)).1 5⟩

/-- Claim C3 (failing evaluation): three non-persistent rules are defined
under scope 0 and a persistent rule elsewhere; ending the scope is expected
to remove exactly the three, but the current deleteRule bails out because the
dynamic sheet has no sheetCSSRuleMap entry (only static rules are ever
cached), so all three dynamic rules survive untouched. -/
theorem endScope_removes_nothing :
    (let st0 := initState ""
    let s1 := (define st0 (.record [("color", .str "red")]) {} (some 0)).1
    let s2 := (define s1 (.record [("color", .str "green")]) {} (some 0)).1
    let s3 := (define s2 (.record [("color", .str "cyan")]) {} (some 0)).1
    let s4 := (define s3 (.record [("margin", .str "0")]) { selector := ".keep" } (some 0)).1
    let sEnd := endScope s4 0
    s4.dynamicSheet.length = 3 ∧
    (styleRulesOf s4.readonlySheet).map StyleRule.selectorText = [".keep"] ∧
    sEnd.dynamicSheet = s4.dynamicSheet ∧
    sEnd.readonlySheet = s4.readonlySheet) := by decide

/-- Claim C1 (counterexample): with the dedupe flag set and a cached rule
for the selector, a second define call returns the existing handle but its
declaration block is diff-patched against the new style map, not left
unchanged. -/
theorem cache_hit_patches_declaration_cex :
    let s1 := (define (initState "")
      (.record [("color", .str "red"), ("fontSize", .str "12px")])
      { selector := ".a", readonly := some true } none).1
    let r := define s1 (.record [("color", .str "blue")])
      { selector := ".a", readonly := some true } none
    r.2 = .ok 0 ∧
    (findRule s1 .readonlyS 0).map StyleRule.decls =
      some [⟨"color", "red", ""⟩, ⟨"font-size", "12px", ""⟩] ∧
    (findRule r.1 .readonlyS 0).map StyleRule.decls = some [⟨"color", "blue", ""⟩] ∧
    (findRule r.1 .readonlyS 0).map StyleRule.decls ≠
      (findRule s1 .readonlyS 0).map StyleRule.decls := by decide

/-- Claim C5 (counterexample): define with a null style does not fail when
the dedupe cache already holds the selector; it patches the cached rule
(emptying its declaration) and returns it. -/
theorem invalid_style_cache_hit_no_error_cex :
    let s1 := (define (initState "") (.record [("color", .str "red")])
      { selector := ".x", readonly := some true } none).1
    let r := define s1 .nullVal { selector := ".x", readonly := some true } none
    r.2 = .ok 0 ∧ (findRule r.1 .readonlyS 0).map StyleRule.decls = some [] := by decide

/-! ## Breakpoint bucketing -/

/-- Writing a screen shell's rule list touches only shellContents. -/
theorem setSheet_screen_frame (st : EngineState) (t : SheetType) (s : MediaScreen)
    (es : List SheetEntry) :
    (setSheet st (.screenS t s) es).dynamicSheet = st.dynamicSheet ∧
    (setSheet st (.screenS t s) es).readonlySheet = st.readonlySheet ∧
    (setSheet st (.screenS t s) es).screenMap = st.screenMap := by
  unfold setSheet
  cases h : alookup st.screenMap (t, s) with
  | none => simp [h]
  | some mid => simp [h]

/-- Updating a rule inside a screen shell touches only shellContents. -/
theorem updateRuleInSheet_screen_frame (st : EngineState) (t : SheetType) (s : MediaScreen)
    (rid : Nat) (f : StyleRule → StyleRule) :
    (updateRuleInSheet st (.screenS t s) rid f).dynamicSheet = st.dynamicSheet ∧
    (updateRuleInSheet st (.screenS t s) rid f).readonlySheet = st.readonlySheet ∧
    (updateRuleInSheet st (.screenS t s) rid f).screenMap = st.screenMap := by
  unfold updateRuleInSheet
  cases h : getSheet st (.screenS t s) with
  | none => exact ⟨rfl, rfl, rfl⟩
  | some es =>
    simp only [h]
    exact setSheet_screen_frame st t s _

/-- Appending a rule to a screen shell touches only shellContents. -/
theorem appendRule_screen_frame (st : EngineState) (t : SheetType) (s : MediaScreen)
    (r : StyleRule) :
    (appendRule st (.screenS t s) r).dynamicSheet = st.dynamicSheet ∧
    (appendRule st (.screenS t s) r).readonlySheet = st.readonlySheet ∧
    (appendRule st (.screenS t s) r).screenMap = st.screenMap := by
  unfold appendRule
  cases h : getSheet st (.screenS t s) with
  | none => exact ⟨rfl, rfl, rfl⟩
  | some es =>
    simp only [h]
    exact setSheet_screen_frame st t s _

/-- Binding a watcher to a rule inside a screen shell touches only
shellContents and the subscription bookkeeping. -/
theorem engineWatch_screen_frame (st : EngineState) (t : SheetType) (s : MediaScreen)
    (rid : Nat) (style : StyleInput) :
    (engineWatch st (.screenS t s) rid style).dynamicSheet = st.dynamicSheet ∧
    (engineWatch st (.screenS t s) rid style).readonlySheet = st.readonlySheet ∧
    (engineWatch st (.screenS t s) rid style).screenMap = st.screenMap := by
  unfold engineWatch
  cases h : findRule st (.screenS t s) rid with
  | none => exact ⟨rfl, rfl, rfl⟩
  | some r =>
    simp only [h]
    exact updateRuleInSheet_screen_frame st t s rid _

/-- updateCachedRule on a screen shell touches only shellContents (and the
subscription bookkeeping). -/
theorem updateCachedRule_screen_frame (st : EngineState) (t : SheetType) (s : MediaScreen)
    (rid : Nat) (style : StyleInput) :
    (updateCachedRule st (.screenS t s) rid style).dynamicSheet = st.dynamicSheet ∧
    (updateCachedRule st (.screenS t s) rid style).readonlySheet = st.readonlySheet ∧
    (updateCachedRule st (.screenS t s) rid style).screenMap = st.screenMap := by
  unfold updateCachedRule
  by_cases hp : isProxy style = true
  · rw [if_pos hp]
    exact engineWatch_screen_frame st t s rid style
  · rw [if_neg hp]
    exact updateRuleInSheet_screen_frame st t s rid _

/-- insertRule into a screen shell never writes to the dynamic sheet, the
readonly sheet's cssRules list, or the screen map. -/
theorem insertRule_screen_frame (st : EngineState) (t : SheetType) (s : MediaScreen)
    (style : StyleInput) (sel pfx : String) (c : Bool) :
    (insertRule st (.screenS t s) style sel pfx c).1.dynamicSheet = st.dynamicSheet ∧
    (insertRule st (.screenS t s) style sel pfx c).1.readonlySheet = st.readonlySheet ∧
    (insertRule st (.screenS t s) style sel pfx c).1.screenMap = st.screenMap := by
  unfold insertRule
  split
  · exact ⟨rfl, rfl, rfl⟩
  · dsimp only
    split
    · exact updateCachedRule_screen_frame _ t s _ style
    · split
      · exact ⟨rfl, rfl, rfl⟩
      · dsimp only
        split
        · split
          · exact ⟨(engineWatch_screen_frame _ t s _ style).1.trans
                     (appendRule_screen_frame _ t s _).1,
                   (engineWatch_screen_frame _ t s _ style).2.1.trans
                     (appendRule_screen_frame _ t s _).2.1,
                   (engineWatch_screen_frame _ t s _ style).2.2.trans
                     (appendRule_screen_frame _ t s _).2.2⟩
          · exact ⟨(engineWatch_screen_frame _ t s _ style).1.trans
                     (appendRule_screen_frame _ t s _).1,
                   (engineWatch_screen_frame _ t s _ style).2.1.trans
                     (appendRule_screen_frame _ t s _).2.1,
                   (engineWatch_screen_frame _ t s _ style).2.2.trans
                     (appendRule_screen_frame _ t s _).2.2⟩
        · split
          · exact ⟨(appendRule_screen_frame _ t s _).1,
                   (appendRule_screen_frame _ t s _).2.1,
                   (appendRule_screen_frame _ t s _).2.2⟩
          · exact ⟨(appendRule_screen_frame _ t s _).1,
                   (appendRule_screen_frame _ t s _).2.1,
                   (appendRule_screen_frame _ t s _).2.2⟩

/-- handleVNodeCssRules touches only the vnode map. -/
theorem handleVNodeCssRules_frame (st : EngineState) (v : Nat) (ref : SheetRef) (rid : Nat) :
    (handleVNodeCssRules st v ref rid).dynamicSheet = st.dynamicSheet ∧
    (handleVNodeCssRules st v ref rid).readonlySheet = st.readonlySheet ∧
    (handleVNodeCssRules st v ref rid).screenMap = st.screenMap ∧
    (handleVNodeCssRules st v ref rid).shellContents = st.shellContents := by
  unfold handleVNodeCssRules
  cases h : findRule st ref rid with
  | none => exact ⟨rfl, rfl, rfl, rfl⟩
  | some r => simp [h]

theorem alookup_append_self {α β : Type} [BEq α] [LawfulBEq α] (l : List (α × β)) (k : α)
    (v : β) (h : alookup l k = none) : alookup (l ++ [(k, v)]) k = some v := by
  unfold alookup at h ⊢
  rw [List.find?_append]
  have hfind : l.find? (fun p => p.1 == k) = none := by
    cases hf : l.find? (fun p => p.1 == k) with
    | none => rfl
    | some p => rw [hf] at h; exact Option.noConfusion h
  rw [hfind]
  simp

theorem alookup_append_ne {α β : Type} [BEq α] [LawfulBEq α] (l : List (α × β)) (k k' : α)
    (v : β) (h : k' ≠ k) : alookup (l ++ [(k, v)]) k' = alookup l k' := by
  unfold alookup
  rw [List.find?_append]
  have hsing : ([(k, v)] : List (α × β)).find? (fun p => p.1 == k') = none := by
    simp [beq_false_of_ne (Ne.symm h)]
  rw [hsing]
  cases l.find? (fun p => p.1 == k') <;> rfl

/-- getCssStyleSheet with a registered breakpoint shell: plain reuse. -/
theorem getCssStyleSheet_screen_some (st : EngineState) (t : SheetType) (s : MediaScreen)
    (mid : Nat) (h : alookup st.screenMap (t, s) = some mid) :
    getCssStyleSheet st (some s) t = (st, .screenS t s) := by
  unfold getCssStyleSheet
  simp [h]

/-- getCssStyleSheet with an unregistered breakpoint shell: the shell is
appended to the readonly sheet and registered. -/
theorem getCssStyleSheet_screen_none (st : EngineState) (t : SheetType) (s : MediaScreen)
    (h : alookup st.screenMap (t, s) = none) :
    getCssStyleSheet st (some s) t
      = ({ st with
            nextId := st.nextId + 1,
            readonlySheet := st.readonlySheet ++ [.media st.nextId (mediaScreenRule s)],
            shellContents := st.shellContents ++ [(st.nextId, [])],
            screenMap := st.screenMap ++ [((t, s), st.nextId)] }, .screenS t s) := by
  unfold getCssStyleSheet
  simp [h]

/-- insertRule of a record style into a registered shell with an empty cache
for that shell: the rule is appended to the shell's contents and its fresh
identity returned. -/
theorem insertRule_screen_miss_record (st : EngineState) (t : SheetType) (s : MediaScreen)
    (m : List (String × StyleValue)) (sel pfx : String) (c : Bool) (nm selTxt : String)
    (mid : Nat) (es : List SheetEntry)
    (hp : parseSelector st.pre st.uuidCount sel pfx = (.ok (nm, selTxt), st.uuidCount))
    (hnc : alookup st.cache (.screenS t s) = none)
    (hmid : alookup st.screenMap (t, s) = some mid)
    (hes : alookup st.shellContents mid = some es) :
    (insertRule st (.screenS t s) (.record m) sel pfx c).2 = .ok st.nextId ∧
    alookup (insertRule st (.screenS t s) (.record m) sel pfx c).1.shellContents mid
      = some (es ++ [.style { id := st.nextId, selectorText := selTxt,
                              decls := buildFormated m, name := nm, listener := none }]) := by
  unfold insertRule
  rw [hp]
  have heta : ({ st with uuidCount := st.uuidCount } : EngineState) = st := rfl
  have hnohit : (if c then cacheGet { st with uuidCount := st.uuidCount } (.screenS t s) selTxt
      else none) = none := by
    cases c
    · rfl
    · show cacheGet st (.screenS t s) selTxt = none
      unfold cacheGet
      rw [hnc]
      rfl
  simp only [heta, hnohit]
  have hcss : cssStyleMapToCssRuleText (.record m) selTxt
      = .ok (selTxt ++ "\x7b" ++ (m.foldl
          (fun acc kv =>
            match formatStyleValue kv.2 with
            | none => acc
            | some v => acc ++ formatStyleKey kv.1 ++ ": " ++ v ++ ";") "") ++ "\x7d") := rfl
  rw [hcss]
  have happend : appendRule { st with nextId := st.nextId + 1 } (.screenS t s)
        { id := st.nextId, selectorText := selTxt,
          decls := buildFormated (jsEntries (unwrapRef (.record m))),
          name := nm, listener := none }
      = { st with
            nextId := st.nextId + 1,
            shellContents := aset st.shellContents mid
              (es ++ [.style { id := st.nextId, selectorText := selTxt,
                               decls := buildFormated m, name := nm, listener := none }]) } := by
    unfold appendRule getSheet
    dsimp only
    rw [hmid]
    simp only [Option.some_bind]
    rw [hes]
    unfold setSheet
    dsimp only
    rw [hmid]
    rfl
  simp only [happend]
  have hsig : isSignal (.record m) = false := rfl
  rw [hsig]
  constructor
  · cases c <;> trivial
  · cases c
    · show alookup (aset st.shellContents mid _) mid = _
      rw [alookup_aset]
      simp
    · show alookup (cacheCssRule _ (.screenS t s) selTxt st.nextId).shellContents mid = _
      show alookup (aset st.shellContents mid _) mid = _
      rw [alookup_aset]
      simp

/-- Claim C6 (amended): a define call with a known breakpoint never inserts
a style rule directly into the dynamic sheet or among the readonly sheet's
top-level rules; the rule goes into the at-rule shell of the pair
(persistence class, breakpoint), where the persistence class c and the sheet
type t are the ones define computes. The shell is created lazily inside the
readonly sheet on first use of that pair, reused on later uses of the same
pair, and shells of other pairs are untouched; a successfully inserted fresh
record style lands inside the shell, both when the shell is reused and when
it is freshly created. -/
theorem define_breakpoint_shells (st : EngineState) (style : StyleInput) (sel pfx : String)
    (ro : Option Bool) (vnode : Option Nat) (scr : MediaScreen) (c : Bool) (t : SheetType)
    (hc : c = (match ro with
      | none => ((jsTrim sel != "") || vnode.isNone : Bool)
      | some b => b))
    (ht : t = if c then SheetType.readonlyTy else SheetType.dynamicTy) :
    (define st style { selector := sel, screen := some scr, pfx := pfx, readonly := ro }
        vnode).1.dynamicSheet = st.dynamicSheet ∧
    styleRulesOf (define st style { selector := sel, screen := some scr, pfx := pfx, readonly := ro } vnode).1.readonlySheet = styleRulesOf st.readonlySheet ∧
    (alookup st.screenMap (t, scr) = none →
      (define st style { selector := sel, screen := some scr, pfx := pfx, readonly := ro }
          vnode).1.readonlySheet
        = st.readonlySheet ++ [.media st.nextId (mediaScreenRule scr)] ∧
      alookup (define st style { selector := sel, screen := some scr, pfx := pfx, readonly := ro } vnode).1.screenMap (t, scr) = some st.nextId) ∧
    (∀ mid, alookup st.screenMap (t, scr) = some mid →
      (define st style { selector := sel, screen := some scr, pfx := pfx, readonly := ro }
          vnode).1.readonlySheet = st.readonlySheet ∧
      alookup (define st style { selector := sel, screen := some scr, pfx := pfx, readonly := ro } vnode).1.screenMap (t, scr) = some mid) ∧
    (∀ t' s', (t', s') ≠ (t, scr) →
      alookup (define st style { selector := sel, screen := some scr, pfx := pfx, readonly := ro } vnode).1.screenMap (t', s')
        = alookup st.screenMap (t', s')) ∧
    (∀ m nm selTxt mid es, style = .record m →
      parseSelector st.pre st.uuidCount sel pfx = (.ok (nm, selTxt), st.uuidCount) →
      alookup st.cache (.screenS t scr) = none →
      alookup st.screenMap (t, scr) = some mid →
      alookup st.shellContents mid = some es →
      (define st style { selector := sel, screen := some scr, pfx := pfx, readonly := ro }
          vnode).2 = .ok st.nextId ∧
      alookup (define st style { selector := sel, screen := some scr, pfx := pfx, readonly := ro } vnode).1.shellContents mid
        = some (es ++ [.style { id := st.nextId, selectorText := selTxt,
                                decls := buildFormated m, name := nm, listener := none }])) ∧
    (∀ m nm selTxt, style = .record m →
      parseSelector st.pre st.uuidCount sel pfx = (.ok (nm, selTxt), st.uuidCount) →
      alookup st.cache (.screenS t scr) = none →
      alookup st.screenMap (t, scr) = none →
      alookup st.shellContents st.nextId = none →
      (define st style { selector := sel, screen := some scr, pfx := pfx, readonly := ro }
          vnode).2 = .ok (st.nextId + 1) ∧
      alookup (define st style { selector := sel, screen := some scr, pfx := pfx, readonly := ro } vnode).1.shellContents st.nextId
        = some [.style { id := st.nextId + 1, selectorText := selTxt,
                         decls := buildFormated m, name := nm, listener := none }]) := by
  have hrt : define st style { selector := sel, screen := some scr, pfx := pfx, readonly := ro }
        vnode
      = (match insertRule (getCssStyleSheet st (some scr) t).1
            (getCssStyleSheet st (some scr) t).2 style sel pfx c with
         | (st2, .error e) => (st2, .error e)
         | (st2, .ok rid) =>
           if vnode.isSome && !c then
             (handleVNodeCssRules st2 (vnode.getD 0)
               (getCssStyleSheet st (some scr) t).2 rid, .ok rid)
           else (st2, .ok rid)) := by
    subst hc ht
    rfl
  cases halo : alookup st.screenMap (t, scr) with
  | some mid =>
    rw [getCssStyleSheet_screen_some st t scr mid halo] at hrt
    cases hir : insertRule st (.screenS t scr) style sel pfx c with
    | mk st2 r2 =>
      have hf := insertRule_screen_frame st t scr style sel pfx c
      rw [hir] at hf hrt
      have hres : ∀ rid : Nat,
          ((if vnode.isSome && !c then
              (handleVNodeCssRules st2 (vnode.getD 0) (.screenS t scr) rid, Except.ok rid)
            else (st2, .ok rid)) : EngineState × Except EngineError Nat).1.dynamicSheet
              = st2.dynamicSheet ∧
          ((if vnode.isSome && !c then
              (handleVNodeCssRules st2 (vnode.getD 0) (.screenS t scr) rid, Except.ok rid)
            else (st2, .ok rid)) : EngineState × Except EngineError Nat).1.readonlySheet
              = st2.readonlySheet ∧
          ((if vnode.isSome && !c then
              (handleVNodeCssRules st2 (vnode.getD 0) (.screenS t scr) rid, Except.ok rid)
            else (st2, .ok rid)) : EngineState × Except EngineError Nat).1.screenMap
              = st2.screenMap ∧
          ((if vnode.isSome && !c then
              (handleVNodeCssRules st2 (vnode.getD 0) (.screenS t scr) rid, Except.ok rid)
            else (st2, .ok rid)) : EngineState × Except EngineError Nat).1.shellContents
              = st2.shellContents ∧
          ((if vnode.isSome && !c then
              (handleVNodeCssRules st2 (vnode.getD 0) (.screenS t scr) rid, Except.ok rid)
            else (st2, .ok rid)) : EngineState × Except EngineError Nat).2 = .ok rid := by
        intro rid
        by_cases hb : (vnode.isSome && !c) = true
        · rw [if_pos hb]
          exact ⟨(handleVNodeCssRules_frame st2 (vnode.getD 0) (.screenS t scr) rid).1,
                 (handleVNodeCssRules_frame st2 (vnode.getD 0) (.screenS t scr) rid).2.1,
                 (handleVNodeCssRules_frame st2 (vnode.getD 0) (.screenS t scr) rid).2.2.1,
                 (handleVNodeCssRules_frame st2 (vnode.getD 0) (.screenS t scr) rid).2.2.2, rfl⟩
        · rw [if_neg hb]
          exact ⟨rfl, rfl, rfl, rfl, rfl⟩
      have hdyn : (define st style { selector := sel, screen := some scr, pfx := pfx, readonly := ro } vnode).1.dynamicSheet = st.dynamicSheet := by
        rw [hrt]
        cases r2 with
        | error e => exact hf.1
        | ok rid => exact ((hres rid).1).trans hf.1
      have hro : (define st style { selector := sel, screen := some scr, pfx := pfx, readonly := ro } vnode).1.readonlySheet = st.readonlySheet := by
        rw [hrt]
        cases r2 with
        | error e => exact hf.2.1
        | ok rid => exact ((hres rid).2.1).trans hf.2.1
      have hsm : (define st style { selector := sel, screen := some scr, pfx := pfx, readonly := ro } vnode).1.screenMap = st.screenMap := by
        rw [hrt]
        cases r2 with
        | error e => exact hf.2.2
        | ok rid => exact ((hres rid).2.2.1).trans hf.2.2
      refine ⟨hdyn, by rw [hro], ?_, ?_, ?_, ?_, ?_⟩
      · intro hnone
        exact Option.noConfusion hnone
      · intro mid' hm
        exact ⟨hro, by rw [hsm, halo]; exact hm⟩
      · intro t' s' _hne
        rw [hsm]
      · intro m nm selTxt mid' es hstyle hp hnc hm he
        subst hstyle
        have hmid' : mid' = mid := (Option.some.inj hm).symm
        subst hmid'
        have hins := insertRule_screen_miss_record st t scr m sel pfx c nm selTxt mid' es
          hp hnc halo he
        rw [hir] at hins
        cases r2 with
        | error e => exact absurd hins.1 (by simp)
        | ok rid =>
          have hridv : Except.ok (ε := EngineError) rid = .ok st.nextId := hins.1
          have hrid : rid = st.nextId := Except.ok.inj hridv
          subst hrid
          refine ⟨?_, ?_⟩
          · rw [hrt]
            exact (hres st.nextId).2.2.2.2
          · rw [hrt]
            exact ((congrArg (fun l => alookup l mid')
              (hres st.nextId).2.2.2.1)).trans hins.2
      · intro m nm selTxt _hstyle _hp _hnc hm _he
        exact Option.noConfusion hm
  | none =>
    rw [getCssStyleSheet_screen_none st t scr halo] at hrt
    cases hir : insertRule
        { st with
            nextId := st.nextId + 1,
            readonlySheet := st.readonlySheet ++ [.media st.nextId (mediaScreenRule scr)],
            shellContents := st.shellContents ++ [(st.nextId, [])],
            screenMap := st.screenMap ++ [((t, scr), st.nextId)] }
        (.screenS t scr) style sel pfx c with
    | mk st2 r2 =>
      have hf := insertRule_screen_frame
        { st with
            nextId := st.nextId + 1,
            readonlySheet := st.readonlySheet ++ [.media st.nextId (mediaScreenRule scr)],
            shellContents := st.shellContents ++ [(st.nextId, [])],
            screenMap := st.screenMap ++ [((t, scr), st.nextId)] } t scr style sel pfx c
      rw [hir] at hf hrt
      have hres : ∀ rid : Nat,
          ((if vnode.isSome && !c then
              (handleVNodeCssRules st2 (vnode.getD 0) (.screenS t scr) rid, Except.ok rid)
            else (st2, .ok rid)) : EngineState × Except EngineError Nat).1.dynamicSheet
              = st2.dynamicSheet ∧
          ((if vnode.isSome && !c then
              (handleVNodeCssRules st2 (vnode.getD 0) (.screenS t scr) rid, Except.ok rid)
            else (st2, .ok rid)) : EngineState × Except EngineError Nat).1.readonlySheet
              = st2.readonlySheet ∧
          ((if vnode.isSome && !c then
              (handleVNodeCssRules st2 (vnode.getD 0) (.screenS t scr) rid, Except.ok rid)
            else (st2, .ok rid)) : EngineState × Except EngineError Nat).1.screenMap
              = st2.screenMap ∧
          ((if vnode.isSome && !c then
              (handleVNodeCssRules st2 (vnode.getD 0) (.screenS t scr) rid, Except.ok rid)
            else (st2, .ok rid)) : EngineState × Except EngineError Nat).1.shellContents
              = st2.shellContents ∧
          ((if vnode.isSome && !c then
              (handleVNodeCssRules st2 (vnode.getD 0) (.screenS t scr) rid, Except.ok rid)
            else (st2, .ok rid)) : EngineState × Except EngineError Nat).2 = .ok rid := by
        intro rid
        by_cases hb : (vnode.isSome && !c) = true
        · rw [if_pos hb]
          exact ⟨(handleVNodeCssRules_frame st2 (vnode.getD 0) (.screenS t scr) rid).1,
                 (handleVNodeCssRules_frame st2 (vnode.getD 0) (.screenS t scr) rid).2.1,
                 (handleVNodeCssRules_frame st2 (vnode.getD 0) (.screenS t scr) rid).2.2.1,
                 (handleVNodeCssRules_frame st2 (vnode.getD 0) (.screenS t scr) rid).2.2.2, rfl⟩
        · rw [if_neg hb]
          exact ⟨rfl, rfl, rfl, rfl, rfl⟩
      have hdyn : (define st style { selector := sel, screen := some scr, pfx := pfx, readonly := ro } vnode).1.dynamicSheet = st.dynamicSheet := by
        rw [hrt]
        cases r2 with
        | error e => exact hf.1
        | ok rid => exact ((hres rid).1).trans hf.1
      have hro : (define st style { selector := sel, screen := some scr, pfx := pfx, readonly := ro } vnode).1.readonlySheet
          = st.readonlySheet ++ [.media st.nextId (mediaScreenRule scr)] := by
        rw [hrt]
        cases r2 with
        | error e => exact hf.2.1
        | ok rid => exact ((hres rid).2.1).trans hf.2.1
      have hsm : (define st style { selector := sel, screen := some scr, pfx := pfx, readonly := ro } vnode).1.screenMap
          = st.screenMap ++ [((t, scr), st.nextId)] := by
        rw [hrt]
        cases r2 with
        | error e => exact hf.2.2
        | ok rid => exact ((hres rid).2.2.1).trans hf.2.2
      refine ⟨hdyn, ?_, ?_, ?_, ?_, ?_, ?_⟩
      · rw [hro]
        simp [styleRulesOf, List.filterMap_append]
      · intro _hnone
        exact ⟨hro, by rw [hsm]; exact alookup_append_self st.screenMap (t, scr) st.nextId halo⟩
      · intro mid hm
        exact Option.noConfusion hm
      · intro t' s' hne
        rw [hsm]
        exact alookup_append_ne st.screenMap (t, scr) (t', s') st.nextId hne
      · intro m nm selTxt mid es _hstyle _hp _hnc hm _he
        exact Option.noConfusion hm
      · intro m nm selTxt hstyle hp hnc _hm hsc
        subst hstyle
        have hins := insertRule_screen_miss_record
          { st with
              nextId := st.nextId + 1,
              readonlySheet := st.readonlySheet ++ [.media st.nextId (mediaScreenRule scr)],
              shellContents := st.shellContents ++ [(st.nextId, [])],
              screenMap := st.screenMap ++ [((t, scr), st.nextId)] }
          t scr m sel pfx c nm selTxt st.nextId [] hp hnc
          (alookup_append_self st.screenMap (t, scr) st.nextId halo)
          (alookup_append_self st.shellContents st.nextId [] hsc)
        rw [hir] at hins
        cases r2 with
        | error e => exact absurd hins.1 (by simp)
        | ok rid =>
          have hridv : Except.ok (ε := EngineError) rid = .ok (st.nextId + 1) := hins.1
          have hrid : rid = st.nextId + 1 := Except.ok.inj hridv
          subst hrid
          refine ⟨?_, ?_⟩
          · rw [hrt]
            exact (hres (st.nextId + 1)).2.2.2.2
          · rw [hrt]
            exact ((congrArg (fun l => alookup l st.nextId)
              (hres (st.nextId + 1)).2.2.2.1)).trans hins.2

/-- Witness for define_breakpoint_shells on a fresh engine: a static rule
with the xs breakpoint is placed inside a freshly created xs shell. -/
theorem define_breakpoint_shells_witness :
    (define (initState "") (.record [("color", .str "red")])
        { selector := ".a", screen := some .xs, pfx := "", readonly := none }
        none).1.dynamicSheet = (initState "").dynamicSheet ∧
    (define (initState "") (.record [("color", .str "red")])
        { selector := ".a", screen := some .xs, pfx := "", readonly := none }
        none).2 = .ok 1 ∧
    alookup (define (initState "") (.record [("color", .str "red")])
        { selector := ".a", screen := some .xs, pfx := "", readonly := none }
        none).1.shellContents 0
      = some [.style { id := 1, selectorText := ".a",
                       decls := buildFormated [("color", .str "red")],
                       name := "a", listener := none }] := by
  have h := define_breakpoint_shells (initState "") (.record [("color", .str "red")])
    ".a" "" none none .xs true .readonlyTy (by decide) (by decide)
  have h7 := h.2.2.2.2.2.2 [("color", .str "red")] "a" ".a" rfl (by decide) (by decide)
    (by decide) (by decide)
  exact ⟨h.1, h7.1, h7.2⟩

/-- Claim C6 (counterexample): two define calls with the same breakpoint but
different persistence classes create two distinct at-rule shells for that one
breakpoint (both nested in the readonly sheet), instead of reusing a single
per-breakpoint shell. -/
theorem same_breakpoint_two_shells_cex :
    let s1 := (define (initState "") (.record [("color", .str "red")])
      { selector := ".a", screen := some .xs } none).1
    let s2 := (define s1 (.record [("color", .str "red")])
      { screen := some .xs } (some 3)).1
    (mediaEntriesOf s2.readonlySheet).length = 2 ∧
    (mediaEntriesOf s2.readonlySheet).map Prod.snd =
      [mediaScreenRule .xs, mediaScreenRule .xs] ∧
    alookup s2.screenMap (.readonlyTy, .xs) ≠ alookup s2.screenMap (.dynamicTy, .xs) := by
  decide

/-! ## The legacy removal path never matches id selectors -/

theorem deleteFirstRev_mem_of_ne (l : List SheetEntry) (sel : String) (r : StyleRule)
    (hne : (r.selectorText == sel) = false) (hmem : SheetEntry.style r ∈ l) :
    SheetEntry.style r ∈ deleteFirstRev l sel := by
  induction l with
  | nil => exact absurd hmem (List.not_mem_nil _)
  | cons e rest ih =>
    cases e with
    | style r' =>
      rw [show deleteFirstRev (SheetEntry.style r' :: rest) sel
          = (if r'.selectorText == sel then rest
             else SheetEntry.style r' :: deleteFirstRev rest sel) from rfl]
      rcases List.mem_cons.mp hmem with heq | hrest
      · have hrr : r = r' := SheetEntry.style.inj heq
        subst hrr
        rw [if_neg (by rw [hne]; exact Bool.false_ne_true)]
        exact List.mem_cons_self _ _
      · by_cases hh : (r'.selectorText == sel) = true
        · rw [if_pos hh]
          exact hrest
        · rw [if_neg hh]
          exact List.mem_cons_of_mem _ (ih hrest)
    | media mid cond =>
      rw [show deleteFirstRev (SheetEntry.media mid cond :: rest) sel
          = SheetEntry.media mid cond :: deleteFirstRev rest sel from rfl]
      rcases List.mem_cons.mp hmem with heq | hrest
      · exact absurd heq (by simp)
      · exact List.mem_cons_of_mem _ (ih hrest)

theorem deleteFirstRev_eq_of_none (l : List SheetEntry) (sel : String)
    (h : ∀ r : StyleRule, SheetEntry.style r ∈ l → (r.selectorText == sel) = false) :
    deleteFirstRev l sel = l := by
  induction l with
  | nil => rfl
  | cons e rest ih =>
    cases e with
    | style r' =>
      rw [show deleteFirstRev (SheetEntry.style r' :: rest) sel
          = (if r'.selectorText == sel then rest
             else SheetEntry.style r' :: deleteFirstRev rest sel) from rfl]
      rw [if_neg (by
        rw [h r' (List.mem_cons_self _ _)]
        exact Bool.false_ne_true)]
      rw [ih (fun r hr => h r (List.mem_cons_of_mem _ hr))]
    | media mid cond =>
      rw [show deleteFirstRev (SheetEntry.media mid cond :: rest) sel
          = SheetEntry.media mid cond :: deleteFirstRev rest sel from rfl]
      rw [ih (fun r hr => h r (List.mem_cons_of_mem _ hr))]

theorem dot_append_ne (s : String) : (s == "." ++ s) = false := by
  cases hb : s == "." ++ s
  · rfl
  · have heq : s = "." ++ s := beq_iff_eq.mp hb
    have hlen : s.data.length = ("." ++ s).data.length := congrArg (fun x => x.data.length) heq
    rw [String.data_append] at hlen
    simp at hlen

theorem startsWith_hash_not_dot (s : String) (h : jsStartsWith s "#" = true) :
    jsStartsWith s "." = false := by
  unfold jsStartsWith at h ⊢
  have hp : "#".data <+: s.data := List.isPrefixOf_iff_prefix.mp h
  rcases hp with ⟨t, ht⟩
  have hd : s.data = '#' :: t := by
    rw [← ht]
    rfl
  rw [hd]
  rw [show (".".data : List Char) = ['.'] from rfl, List.isPrefixOf, Bool.and_eq_false_iff]
  left
  decide

/-- Claim C10: the legacy removal path trims its selector argument and
prepends a dot whenever the trimmed selector does not already start with one;
hence with a selector whose trimmed form starts with a hash, every rule whose
selectorText equals that trimmed id selector survives the call, and when no
rule carries the dotted form of it the sheet is left entirely unchanged. -/
theorem legacy_deleteRule_id_selector (sheet : List SheetEntry) (sel : String)
    (hsel : jsStartsWith (jsTrim sel) "#" = true) :
    (∀ r : StyleRule, SheetEntry.style r ∈ sheet → r.selectorText = jsTrim sel →
      SheetEntry.style r ∈ Legacy.deleteRule sheet sel) ∧
    ((∀ r : StyleRule, SheetEntry.style r ∈ sheet → r.selectorText ≠ "." ++ jsTrim sel) →
      Legacy.deleteRule sheet sel = sheet) := by
  have hdot : jsStartsWith (jsTrim sel) "." = false := startsWith_hash_not_dot _ hsel
  have hrt : Legacy.deleteRule sheet sel
      = (deleteFirstRev sheet.reverse ("." ++ jsTrim sel)).reverse := by
    show (deleteFirstRev sheet.reverse
        (if jsStartsWith (jsTrim sel) "." then jsTrim sel else "." ++ jsTrim sel)).reverse = _
    rw [hdot, if_neg Bool.false_ne_true]
  constructor
  · intro r hmem hsame
    rw [hrt, List.mem_reverse]
    exact deleteFirstRev_mem_of_ne _ _ _
      (by rw [hsame]; exact dot_append_ne _) (List.mem_reverse.mpr hmem)
  · intro hno
    rw [hrt]
    rw [deleteFirstRev_eq_of_none _ _ (fun r hr => by
      rw [beq_eq_false_iff_ne]
      exact hno r (List.mem_reverse.mp hr))]
    exact List.reverse_reverse _

/-- Witness for legacy_deleteRule_id_selector: deleting by the id selector
of the only rule in the sheet leaves the sheet unchanged. -/
theorem legacy_deleteRule_id_selector_witness :
    jsStartsWith (jsTrim "#a") "#" = true ∧
    Legacy.deleteRule
        [SheetEntry.style { id := 0, selectorText := "#a", decls := [], name := "",
                            listener := none }] "#a"
      = [SheetEntry.style { id := 0, selectorText := "#a", decls := [], name := "",
                            listener := none }] := by
  refine ⟨by decide, ?_⟩
  refine (legacy_deleteRule_id_selector
    [SheetEntry.style { id := 0, selectorText := "#a", decls := [], name := "",
                        listener := none }] "#a" (by decide)).2 ?_
  intro r hr
  rw [List.mem_singleton] at hr
  cases SheetEntry.style.inj hr
  decide

/-! ## Style value validity during serialisation -/

theorem bang_beq_ws {c : Char} (hc : c.isWhitespace = true) : ('!' == c) = false := by
  have hd : ((c = ' ' ∨ c = '\t') ∨ c = '\r') ∨ c = '\n' := by
    simpa [Char.isWhitespace] using hc
  rcases hd with ((h | h) | h) | h <;> subst h <;> decide

theorem important_not_prefix_ws {c : Char} (hc : c.isWhitespace = true) (l : List Char) :
    importantPat.isPrefixOf (c :: l) = false := by
  have hpat : importantPat = '!' :: "important".data := rfl
  rw [hpat, List.isPrefixOf, bang_beq_ws hc, Bool.false_and]

theorem allWs_trimCharList {l : List Char} (h : ∀ c ∈ l, c.isWhitespace = true) :
    trimCharList l = [] := by
  unfold trimCharList
  rw [List.dropWhile_eq_nil_iff.mpr h]
  simp

theorem containsSub_ws_false {l : List Char} (h : ∀ c ∈ l, c.isWhitespace = true) :
    containsSub l importantPat = false := by
  induction l with
  | nil => decide
  | cons c t ih =>
    rw [show containsSub (c :: t) importantPat
        = (importantPat.isPrefixOf (c :: t) || containsSub t importantPat) from rfl]
    rw [important_not_prefix_ws (h c (List.mem_cons_self c t)) t,
        ih (fun x hx => h x (List.mem_cons_of_mem c hx))]
    rfl

theorem containsSub_found (w1 l : List Char) (hw : ∀ c ∈ w1, c.isWhitespace = true) :
    containsSub (w1 ++ (importantPat ++ l)) importantPat = true := by
  induction w1 with
  | nil =>
    rw [List.nil_append]
    rw [show containsSub (importantPat ++ l) importantPat
        = (importantPat.isPrefixOf (importantPat ++ l)
            || containsSub ("important".data ++ l) importantPat) from rfl]
    rw [List.isPrefixOf_iff_prefix.mpr (List.prefix_append _ _), Bool.true_or]
  | cons c t ih =>
    rw [List.cons_append]
    rw [show containsSub (c :: (t ++ (importantPat ++ l))) importantPat
        = (importantPat.isPrefixOf (c :: (t ++ (importantPat ++ l)))
            || containsSub (t ++ (importantPat ++ l)) importantPat) from rfl]
    rw [important_not_prefix_ws (hw c (List.mem_cons_self c t)) _,
        ih (fun x hx => hw x (List.mem_cons_of_mem c hx)), Bool.false_or]

theorem replaceFirst_ws (w1 l : List Char) (hw : ∀ c ∈ w1, c.isWhitespace = true) :
    replaceFirstList (w1 ++ (importantPat ++ l)) importantPat [] = w1 ++ l := by
  induction w1 with
  | nil =>
    rw [List.nil_append, List.nil_append]
    rw [show replaceFirstList (importantPat ++ l) importantPat []
        = (if importantPat.isPrefixOf (importantPat ++ l) then
             [] ++ (importantPat ++ l).drop importantPat.length
           else '!' :: replaceFirstList ("important".data ++ l) importantPat []) from rfl]
    rw [if_pos (List.isPrefixOf_iff_prefix.mpr (List.prefix_append _ _)),
        List.nil_append, List.drop_left]
  | cons c t ih =>
    rw [List.cons_append]
    rw [show replaceFirstList (c :: (t ++ (importantPat ++ l))) importantPat []
        = (if importantPat.isPrefixOf (c :: (t ++ (importantPat ++ l))) then
             [] ++ (c :: (t ++ (importantPat ++ l))).drop importantPat.length
           else c :: replaceFirstList (t ++ (importantPat ++ l)) importantPat []) from rfl]
    rw [if_neg (by rw [important_not_prefix_ws (hw c (List.mem_cons_self c t)) _]; exact
          Bool.false_ne_true)]
    rw [ih (fun x hx => hw x (List.mem_cons_of_mem c hx)), List.cons_append]

theorem foldl_decls (l : List (String × StyleValue)) (a : String) :
    l.foldl (fun acc kv =>
        match formatStyleValue kv.2 with
        | none => acc
        | some v => acc ++ formatStyleKey kv.1 ++ ": " ++ v ++ ";") a
      = a ++ joinAll (l.filterMap (fun kv => (formatStyleValue kv.2).map
          (fun v => formatStyleKey kv.1 ++ ": " ++ v ++ ";"))) := by
  induction l generalizing a with
  | nil => simp [joinAll]
  | cons kv t ih =>
    cases hv : formatStyleValue kv.2 with
    | none =>
      simp only [List.foldl_cons, List.filterMap_cons, hv, Option.map_none']
      exact ih a
    | some v =>
      simp only [List.foldl_cons, List.filterMap_cons, hv, Option.map_some']
      rw [ih, joinAll]
      simp [String.append_assoc]

theorem cssRuleText_record (l : List (String × StyleValue)) (selTxt : String) :
    cssStyleMapToCssRuleText (.record l) selTxt
      = .ok (selTxt ++ "\x7b" ++ joinAll (l.filterMap (fun kv =>
          (formatStyleValue kv.2).map
            (fun v => formatStyleKey kv.1 ++ ": " ++ v ++ ";"))) ++ "\x7d") := by
  have h : cssStyleMapToCssRuleText (.record l) selTxt
      = .ok (selTxt ++ "\x7b" ++ l.foldl (fun acc kv =>
          match formatStyleValue kv.2 with
          | none => acc
          | some v => acc ++ formatStyleKey kv.1 ++ ": " ++ v ++ ";") "" ++ "\x7d") := rfl
  rw [h, foldl_decls l ""]
  rfl

/-- Claim C9: during serialisation of a style map, a string value that is
empty, all whitespace, or the token !important surrounded only by whitespace
is invalid (formatStyleValue returns null) and its property is dropped from
the declaration; every numeric value, including 0, is kept and rendered as
its decimal string; non-string non-number values are always dropped; and the
serialised rule text is exactly the selector text around the concatenated
declarations of the entries whose values format to non-null. -/
theorem formatStyleValue_validity (s k : String) (n : Int) (v : StyleValue)
    (l m1 m2 : List (String × StyleValue)) (selTxt : String)
    (hs : (∀ c ∈ s.data, c.isWhitespace = true) ∨
      ∃ w1 w2, s.data = w1 ++ (importantPat ++ w2) ∧
        (∀ c ∈ w1, c.isWhitespace = true) ∧ ∀ c ∈ w2, c.isWhitespace = true) :
    formatStyleValue (.str s) = none ∧
    formatStyleValue (.num n) = some (intToString n) ∧
    formatStyleValue .other = none ∧
    cssStyleMapToCssRuleText (.record l) selTxt
      = .ok (selTxt ++ "\x7b" ++ joinAll (l.filterMap (fun kv =>
          (formatStyleValue kv.2).map
            (fun u => formatStyleKey kv.1 ++ ": " ++ u ++ ";"))) ++ "\x7d") ∧
    (formatStyleValue v = none →
      cssStyleMapToCssRuleText (.record (m1 ++ (k, v) :: m2)) selTxt
        = cssStyleMapToCssRuleText (.record (m1 ++ m2)) selTxt) := by
  refine ⟨?_, rfl, rfl, cssRuleText_record l selTxt, ?_⟩
  · have hrp : removePriority s = "" := by
      rcases hs with h1 | ⟨w1, w2, hdata, hw1, hw2⟩
      · unfold removePriority
        rw [containsSub_ws_false h1]
        rw [if_neg (by exact Bool.false_ne_true)]
        show String.mk (trimCharList s.data) = ""
        rw [allWs_trimCharList h1]
      · unfold removePriority
        rw [hdata, containsSub_found w1 w2 hw1]
        rw [if_pos rfl]
        rw [replaceFirst_ws w1 w2 hw1]
        rw [allWs_trimCharList (by
          intro c hc
          rcases List.mem_append.mp hc with h | h
          exacts [hw1 c h, hw2 c h])]
    show (if 0 < jsLength (removePriority s) then
        (let v := jsTrim s; if 0 < jsLength v then some v else none) else none) = none
    rw [hrp]
    rw [if_neg (by decide)]
  · intro hv
    rw [cssRuleText_record, cssRuleText_record]
    rw [List.filterMap_append, List.filterMap_append, List.filterMap_cons]
    simp [hv]

/-- Witness for formatStyleValue_validity: the bare priority token is
dropped while a numeric zero width is kept. -/
theorem formatStyleValue_validity_witness :
    formatStyleValue (.str " !important ") = none ∧
    formatStyleValue (.num 0) = some (intToString 0) ∧
    cssStyleMapToCssRuleText (.record [("width", .num 0), ("color", .str " !important ")]) ".a"
      = cssStyleMapToCssRuleText (.record [("width", .num 0)]) ".a" := by
  have h := formatStyleValue_validity " !important " "color" 0 (.str " !important ")
    [("width", .num 0)] [("width", .num 0)] [] ".a"
    (Or.inr ⟨[' '], [' '], by decide, by decide, by decide⟩)
  exact ⟨h.1, h.2.1, h.2.2.2.2 (by decide)⟩

/-! ## The subscription invariant -/

theorem set_self {α : Type} {l : List α} {i : Nat} {a : α} (h : l[i]? = some a) :
    l.set i a = l := by
  apply List.ext_getElem?
  intro j
  rw [List.getElem?_set]
  by_cases hij : i = j
  · subst hij
    rw [if_pos rfl, if_pos]
    · exact h.symm
    · obtain ⟨hlt, -⟩ := List.getElem?_eq_some_iff.mp h
      exact hlt
  · rw [if_neg hij]

theorem length_le_one_of_nodup_all_eq {α : Type} {l : List α} (hnd : l.Nodup)
    (hall : ∀ x ∈ l, ∀ y ∈ l, x = y) : l.length ≤ 1 := by
  match l with
  | [] => simp
  | [x] => simp
  | x :: y :: t =>
    exfalso
    have hxy : x = y := hall x (by simp) y (by simp)
    have := (List.nodup_cons.mp hnd).1
    exact this (by rw [hxy]; simp)

/-- The characterisation of membership in the active-subscription list. -/
theorem mem_activeSubsFor {w : BindWorld} {rid : Nat} {p : Nat × Nat} :
    p ∈ activeSubsFor w rid ↔ p ∈ w.sys.owner ∧ p.2 = rid ∧ p.1 ∉ w.sys.disposed := by
  unfold activeSubsFor
  rw [List.mem_filter]
  constructor
  · rintro ⟨hm, hp⟩
    simp only [Bool.and_eq_true, beq_iff_eq, Bool.not_eq_true',
      List.elem_eq_mem, decide_eq_false_iff_not] at hp
    exact ⟨hm, hp⟩
  · rintro ⟨hm, h2, h1⟩
    refine ⟨hm, ?_⟩
    simp only [Bool.and_eq_true, beq_iff_eq, Bool.not_eq_true',
      List.elem_eq_mem, decide_eq_false_iff_not]
    exact ⟨h2, h1⟩

/-- In a well-formed world, a rule identity has at most one active
subscription. -/
theorem activeSubsFor_length_le_one {w : BindWorld} (h : WorldWF w) (rid : Nat) :
    (activeSubsFor w rid).length ≤ 1 := by
  apply length_le_one_of_nodup_all_eq
  · exact (h.ownerNodup.of_map).filter _
  · intro x hx y hy
    obtain ⟨hxo, hx2, hx1⟩ := mem_activeSubsFor.mp hx
    obtain ⟨hyo, hy2, hy1⟩ := mem_activeSubsFor.mp hy
    obtain ⟨rx, hrx, hrxid, hrxl⟩ := h.activeAttached x hxo hx1
    obtain ⟨ry, hry, hryid, hryl⟩ := h.activeAttached y hyo hy1
    have hreq : rx = ry :=
      List.inj_on_of_nodup_map h.rulesNodup hrx hry (by rw [hrxid, hryid, hx2, hy2])
    have hfst : x.1 = y.1 := by
      have h1 : ry.listener = some x.1 := by rw [← hreq]; exact hrxl
      rw [hryl] at h1
      exact (Option.some.inj h1).symm
    exact List.inj_on_of_nodup_map h.ownerNodup hxo hyo hfst

/-- A member of l.set i a that is not the replaced element was already in l. -/
theorem mem_set_of_ne {α : Type} {l : List α} {i : Nat} {a x r : α}
    (hx : x ∈ l) (hr : l[i]? = some r) (hne : x ≠ r) : x ∈ l.set i a := by
  obtain ⟨j, hjlt, hja⟩ := List.getElem_of_mem hx
  by_cases hij : i = j
  · exfalso
    apply hne
    subst hij
    have hsome : l[i]? = some x := List.getElem?_eq_some_iff.mpr ⟨hjlt, hja⟩
    rw [hr] at hsome
    exact (Option.some.inj hsome).symm
  · refine List.getElem?_mem (n := j) ?_
    rw [List.getElem?_set_ne hij]
    exact List.getElem?_eq_some_iff.mpr ⟨hjlt, hja⟩

/-- With duplicate-free keys, a member of l.set i a carrying the replaced
element's key must be the new element. -/
theorem eq_set_elem_of_key {α β : Type} {f : α → β} {l : List α} {i : Nat} {a x r : α}
    (hnd : (l.map f).Nodup) (hr : l[i]? = some r) (hx : x ∈ l.set i a) (hk : f x = f r) :
    x = a := by
  obtain ⟨j, hjlt, hja⟩ := List.getElem_of_mem hx
  have hjlt' : j < l.length := by simpa using hjlt
  have hilt : i < l.length := (List.getElem?_eq_some_iff.mp hr).1
  by_cases hij : i = j
  · subst hij
    rw [List.getElem_set_self] at hja
    exact hja.symm
  · exfalso
    have hja' : l[j] = x := by
      have := List.getElem_set (l := l) (m := i) (n := j) (a := a) (h := hjlt)
      rw [if_neg hij] at this
      rw [← hja, this]
    have hri : l[i] = r := by
      obtain ⟨h1, h2⟩ := List.getElem?_eq_some_iff.mp hr
      exact h2
    have hjm : j < (l.map f).length := by simpa using hjlt'
    have him : i < (l.map f).length := by simpa using hilt
    have hmap : (l.map f)[j] = (l.map f)[i] := by
      simp only [List.getElem_map]
      rw [hja', hri, hk]
    exact hij ((hnd.getElem_inj_iff).mp hmap).symm

/-- watchProxyStyleChange is a no-op on a rule that already has a listener. -/
theorem watchProxyStyleChange_isSome {r : StyleRule} {style : StyleInput} {sys : SubSys}
    (hl : r.listener.isSome = true) : watchProxyStyleChange r style sys = (r, sys) := by
  unfold watchProxyStyleChange
  rw [if_pos hl]

/-- watchProxyStyleChange on a listener-free rule creates a fresh
subscription and stores it on the rule. -/
theorem watchProxyStyleChange_none {r : StyleRule} {style : StyleInput} {sys : SubSys}
    (hl : r.listener = none) :
    watchProxyStyleChange r style sys
      = ({ r with listener := some sys.nextId },
         { nextId := sys.nextId + 1, owner := sys.owner ++ [(sys.nextId, r.id)],
           disposed := sys.disposed }) := by
  unfold watchProxyStyleChange
  rw [hl]
  rfl

theorem disposeListener_none {r : StyleRule} {sys : SubSys} (hl : r.listener = none) :
    disposeListener r sys = (r, sys) := by
  unfold disposeListener
  rw [hl]

theorem disposeListener_some {r : StyleRule} {sys : SubSys} {sid : Nat}
    (hl : r.listener = some sid) (hnd : sid ∉ sys.disposed) :
    disposeListener r sys
      = ({ r with listener := none }, { sys with disposed := sys.disposed ++ [sid] }) := by
  unfold disposeListener
  rw [hl]
  have hcont : sys.disposed.contains sid = false := by
    simp only [List.elem_eq_mem, decide_eq_false_iff_not]
    exact hnd
  simp [hcont, hnd]

/-- Every step of the binding world preserves well-formedness. -/
theorem wf_step {w : BindWorld} (h : WorldWF w) (op : BindOp) : WorldWF (stepOp w op) := by
  cases op with
  | bind i style =>
    rw [show stepOp w (.bind i style)
        = (match w.rules[i]? with
           | none => w
           | some r =>
             { rules := w.rules.set i (watchProxyStyleChange r style w.sys).1,
               sys := (watchProxyStyleChange r style w.sys).2 }) from rfl]
    cases hr : w.rules[i]? with
    | none => exact h
    | some r =>
      show WorldWF { rules := w.rules.set i (watchProxyStyleChange r style w.sys).1,
                     sys := (watchProxyStyleChange r style w.sys).2 }
      by_cases hl : r.listener.isSome = true
      · rw [watchProxyStyleChange_isSome hl]
        have hset : w.rules.set i r = w.rules := set_self hr
        have heq : ({ rules := w.rules.set i r, sys := w.sys } : BindWorld) = w := by
          rw [hset]
        rw [heq]
        exact h
      · have hlnone : r.listener = none := Option.not_isSome_iff_eq_none.mp hl
        rw [watchProxyStyleChange_none hlnone]
        have hilt : i < w.rules.length := (List.getElem?_eq_some_iff.mp hr).1
        refine ⟨?_, ?_, ?_, ?_, ?_, ?_⟩
        · intro p hp
          rcases List.mem_append.mp hp with hold | hnew
          · exact Nat.lt_succ_of_lt (h.ownerBound p hold)
          · rw [List.mem_singleton.mp hnew]
            exact Nat.lt_succ_self w.sys.nextId
        · intro s hs
          exact Nat.lt_succ_of_lt (h.disposedBound s hs)
        · rw [List.map_append]
          refine List.Nodup.append h.ownerNodup (by simp) ?_
          intro a ha hb
          simp only [List.map_cons, List.map_nil, List.mem_singleton] at hb
          subst hb
          obtain ⟨p, hp, hpe⟩ := List.mem_map.mp ha
          exact Nat.lt_irrefl w.sys.nextId (hpe ▸ h.ownerBound p hp)
        · have : (w.rules.set i { r with listener := some w.sys.nextId }).map
              (fun r => r.id) = w.rules.map (fun r => r.id) := by
            rw [List.map_set]
            apply set_self
            rw [List.getElem?_map, hr]
            rfl
          rw [this]
          exact h.rulesNodup
        · intro r2 hr2 sid hsid
          rcases List.mem_or_eq_of_mem_set hr2 with hold | hnew
          · obtain ⟨ho, hd⟩ := h.listenerSound r2 hold sid hsid
            exact ⟨List.mem_append_left _ ho, hd⟩
          · subst hnew
            simp only at hsid
            have hsn : sid = w.sys.nextId := (Option.some.inj hsid).symm
            subst hsn
            constructor
            · apply List.mem_append_right
              simp
            · intro hmem
              exact Nat.lt_irrefl _ (h.disposedBound _ hmem)
        · intro p hp hpd
          rcases List.mem_append.mp hp with hold | hnew
          · obtain ⟨r2, hr2m, hr2id, hr2l⟩ := h.activeAttached p hold hpd
            have hne : r2 ≠ r := by
              intro he
              rw [he, hlnone] at hr2l
              exact Option.noConfusion hr2l
            exact ⟨r2, mem_set_of_ne hr2m hr hne, hr2id, hr2l⟩
          · rw [List.mem_singleton.mp hnew]
            exact ⟨{ r with listener := some w.sys.nextId },
              List.mem_set w.rules i hilt _, rfl, rfl⟩
  | dispose i =>
    rw [show stepOp w (.dispose i)
        = (match w.rules[i]? with
           | none => w
           | some r =>
             { rules := w.rules.set i (disposeListener r w.sys).1,
               sys := (disposeListener r w.sys).2 }) from rfl]
    cases hr : w.rules[i]? with
    | none => exact h
    | some r =>
      show WorldWF { rules := w.rules.set i (disposeListener r w.sys).1,
                     sys := (disposeListener r w.sys).2 }
      have hrm : r ∈ w.rules := List.getElem?_mem hr
      cases hl : r.listener with
      | none =>
        rw [disposeListener_none hl]
        have hset : w.rules.set i r = w.rules := set_self hr
        have heq : ({ rules := w.rules.set i r, sys := w.sys } : BindWorld) = w := by
          rw [hset]
        rw [heq]
        exact h
      | some sid =>
        obtain ⟨howner, hnd⟩ := h.listenerSound r hrm sid hl
        rw [disposeListener_some hl hnd]
        refine ⟨h.ownerBound, ?_, h.ownerNodup, ?_, ?_, ?_⟩
        · intro s hs
          rcases List.mem_append.mp hs with hold | hnew
          · exact h.disposedBound s hold
          · rw [List.mem_singleton.mp hnew]
            exact h.ownerBound _ howner
        · have : (w.rules.set i { r with listener := none }).map
              (fun r => r.id) = w.rules.map (fun r => r.id) := by
            rw [List.map_set]
            apply set_self
            rw [List.getElem?_map, hr]
            rfl
          rw [this]
          exact h.rulesNodup
        · intro r2 hr2 sid2 hsid2
          have hne : r2 ≠ ({ r with listener := none } : StyleRule) := by
            intro he
            rw [he] at hsid2
            exact Option.noConfusion hsid2
          have hr2old : r2 ∈ w.rules := by
            rcases List.mem_or_eq_of_mem_set hr2 with hold | hnew
            · exact hold
            · exact absurd hnew hne
          obtain ⟨ho, hd⟩ := h.listenerSound r2 hr2old sid2 hsid2
          refine ⟨ho, ?_⟩
          intro hmem
          rcases List.mem_append.mp hmem with hold | hnew2
          · exact hd hold
          · have hsid2sid : sid2 = sid := List.mem_singleton.mp hnew2
            subst hsid2sid
            have hpair : (sid2, r2.id) = (sid2, r.id) :=
              List.inj_on_of_nodup_map h.ownerNodup ho howner rfl
            have hid : r2.id = r.id := congrArg Prod.snd hpair
            have : r2 = ({ r with listener := none } : StyleRule) :=
              eq_set_elem_of_key h.rulesNodup hr hr2 hid
            exact hne this
        · intro p hp hpd
          have hpdold : p.1 ∉ w.sys.disposed := fun hx => hpd (List.mem_append_left _ hx)
          have hpsid : p.1 ≠ sid := by
            intro he
            exact hpd (List.mem_append_right _ (by rw [he]; simp))
          obtain ⟨r2, hr2m, hr2id, hr2l⟩ := h.activeAttached p hp hpdold
          have hne : r2 ≠ r := by
            intro he
            rw [he, hl] at hr2l
            exact hpsid (Option.some.inj hr2l).symm
          exact ⟨r2, mem_set_of_ne hr2m hr hne, hr2id, hr2l⟩

/-- Well-formedness is preserved by arbitrary event sequences. -/
theorem wf_runOps {w : BindWorld} (h : WorldWF w) (ops : List BindOp) :
    WorldWF (runOps w ops) := by
  induction ops generalizing w with
  | nil => exact h
  | cons op rest ih => exact ih (wf_step h op)

/-- Claim C8 (amended): starting from any well-formed world, after any
sequence of bind/dispose events every rule identity holds at most one active
subscription — but binding a reactive source to a rule that already has a
subscription is a complete no-op: the previous subscription is kept, nothing
is disposed, and no new subscription takes effect. -/
theorem listener_at_most_one_rebind_noop :
    (∀ (w : BindWorld), WorldWF w → ∀ (ops : List BindOp) (rid : Nat),
       (activeSubsFor (runOps w ops) rid).length ≤ 1) ∧
    (∀ (w : BindWorld) (i : Nat) (style : StyleInput) (r : StyleRule),
       w.rules[i]? = some r → r.listener.isSome = true →
       stepOp w (.bind i style) = w) := by
  constructor
  · intro w hw ops rid
    exact activeSubsFor_length_le_one (wf_runOps hw ops) rid
  · intro w i style r hr hl
    rw [show stepOp w (.bind i style)
        = (match w.rules[i]? with
           | none => w
           | some r =>
             { rules := w.rules.set i (watchProxyStyleChange r style w.sys).1,
               sys := (watchProxyStyleChange r style w.sys).2 }) from rfl, hr]
    show ({ rules := w.rules.set i (watchProxyStyleChange r style w.sys).1,
            sys := (watchProxyStyleChange r style w.sys).2 } : BindWorld) = w
    rw [watchProxyStyleChange_isSome hl, set_self hr]

/-- Witness for listener_at_most_one_rebind_noop: a concrete world run
through two rebinds and a disposal keeps at most one active subscription,
and rebinding a concrete already-bound rule changes nothing. -/
theorem listener_at_most_one_rebind_noop_witness :
    (activeSubsFor (runOps
        { rules := [{ id := 0, selectorText := ".r", decls := [], name := "r", listener := none }],
          sys := { nextId := 0, owner := [], disposed := [] } }
        [.bind 0 (.proxySig [("color", .str "red")]),
         .bind 0 (.proxySig [("color", .str "blue")]),
         .dispose 0]) 0).length ≤ 1 ∧
    stepOp { rules := [{ id := 3, selectorText := ".q", decls := [], name := "q",
                         listener := some 7 }],
             sys := { nextId := 8, owner := [(7, 3)], disposed := [] } }
        (.bind 0 (.proxySig []))
      = { rules := [{ id := 3, selectorText := ".q", decls := [], name := "q",
                      listener := some 7 }],
          sys := { nextId := 8, owner := [(7, 3)], disposed := [] } } :=
  ⟨listener_at_most_one_rebind_noop.1 _ (by constructor <;> decide) _ 0,
   listener_at_most_one_rebind_noop.2 _ 0 (.proxySig [])
     { id := 3, selectorText := ".q", decls := [], name := "q", listener := some 7 }
     (by decide) (by decide)⟩

/-- Claim C8 (counterexample): binding a second reactive source to a rule
that already holds a subscription neither disposes the previous subscription
nor creates a new one; the call is a complete no-op. -/
theorem rebind_does_not_dispose_cex :
    let w0 : BindWorld :=
      { rules := [{ id := 0, selectorText := ".r", decls := [], name := "r", listener := none }],
        sys := { nextId := 0, owner := [], disposed := [] } }
    let w1 := stepOp w0 (.bind 0 (.proxySig [("color", .str "red")]))
    let w2 := stepOp w1 (.bind 0 (.proxySig [("color", .str "blue")]))
    w2 = w1 ∧ w2.sys.disposed = [] ∧
    w2.rules.map StyleRule.listener = [some 0] ∧ w2.sys.nextId = 1 := by decide

end CssJs
